import Mathlib

/-!
Verification development for the apt-golang-s3 protocol engine
(`method/method.go`).  Go strings are modelled as `List Char`; the Go
standard-library string operations the source relies on
(`strings.Split`, `strings.Index`, `strings.ReplaceAll`,
`strings.HasSuffix`, `strings.TrimSuffix`, `strings.Join`) are given
executable Lean counterparts, and `net/url.Parse` is modelled for the
locator shapes the engine handles.
-/

namespace AptS3

/-- Go strings, modelled at character granularity. -/
abbrev Str := List Char

/-- `strings.Split(s, sep)` for a one-character separator: Go always
returns at least one (possibly empty) token. -/
def splitOnChar (c : Char) : Str → List Str
  | [] => [[]]
  | x :: xs =>
    if x = c then [] :: splitOnChar c xs
    else
      match splitOnChar c xs with
      | [] => [[x]]
      | t :: ts => (x :: t) :: ts

/-- `strings.Index(s, ch)` for a one-character pattern: index of the first
occurrence, `none` when absent (Go returns -1). -/
def firstIdxOf (c : Char) : Str → Option Nat
  | [] => none
  | x :: xs => if x = c then some 0 else (firstIdxOf c xs).map (· + 1)

/-- Index of the last occurrence of a character (Go `strings.LastIndex`
with a one-character pattern). -/
def lastIdxOf (c : Char) (s : Str) : Option Nat :=
  (firstIdxOf c s.reverse).map (fun i => s.length - 1 - i)

/-- Fuel-driven core of Go `strings.ReplaceAll` for a nonempty pattern:
scan left to right, replacing each non-overlapping occurrence.  The fuel
is an upper bound on the number of characters still to be scanned, so the
recursion is structural and kernel-reducible. -/
def raAux (pat repl : Str) : Nat → Str → Str
  | 0, s => s
  | fuel + 1, s =>
    match s with
    | [] => []
    | c :: rest =>
      if pat.isPrefixOf s then repl ++ raAux pat repl fuel (s.drop pat.length)
      else c :: raAux pat repl fuel rest

/-- Go `strings.ReplaceAll(s, pat, repl)`.  With an empty pattern Go
inserts `repl` before every character and once at the end. -/
def replaceAll (pat repl s : Str) : Str :=
  if pat = [] then repl ++ s.flatMap (fun c => c :: repl)
  else raAux pat repl s.length s

/-- Go `strings.HasSuffix`. -/
def hasSuffixL (s suf : Str) : Bool := suf.isSuffixOf s

/-- Go `strings.TrimSuffix`. -/
def trimSuffixL (s suf : Str) : Str :=
  if hasSuffixL s suf then s.take (s.length - suf.length) else s

/-- Go `strings.Join(tokens, "/")` restricted to the one-character
separator the source uses. -/
def joinWith (c : Char) (l : List Str) : Str := List.intercalate [c] l

/-- Go `strings.HasPrefix`. -/
def startsWithL (s pre : Str) : Bool := pre.isPrefixOf s

/-- Go `strings.Cut` at the first occurrence of a character: the part
before, and (when the character occurs) the part after. -/
def cutAtChar (c : Char) (s : Str) : Str × Option Str :=
  match firstIdxOf c s with
  | none => (s, none)
  | some i => (s.take i, some (s.drop (i + 1)))

/-! ## Model of `net/url.Parse`

The source resolves locators with Go's `net/url` package (an external
collaborator; the spec, section 4.3, requires parsing the locator "as a
generic URI").  The fragment below models the parts of `url.Parse`,
`url.Userinfo` and `URL.Hostname` exercised by s3 locators: scheme
splitting, fragment/query cutting, authority/userinfo/host separation,
percent-decoding, and Go's userinfo character validation.  Bracketed
(IPv6) hosts and control characters are rejected, as minor
simplifications of Go's behavior on inputs outside the engine's domain. -/

/-- Value of an ASCII hex digit. -/
def hexVal (c : Char) : Option Nat :=
  if '0' ≤ c ∧ c ≤ '9' then some (c.toNat - '0'.toNat)
  else if 'a' ≤ c ∧ c ≤ 'f' then some (c.toNat - 'a'.toNat + 10)
  else if 'A' ≤ c ∧ c ≤ 'F' then some (c.toNat - 'A'.toNat + 10)
  else none

/-- Percent-decoding (Go `net/url.unescape`): `%XX` becomes the byte
`XX`; a `%` not followed by two hex digits is an error. -/
def unescape : Str → Option Str
  | [] => some []
  | ['%'] => none
  | ['%', _] => none
  | '%' :: h1 :: h2 :: rest =>
    match hexVal h1, hexVal h2 with
    | some a, some b => (unescape rest).map (Char.ofNat (16 * a + b) :: ·)
    | _, _ => none
  | c :: rest => (unescape rest).map (c :: ·)

def isAlphaChar (c : Char) : Bool :=
  ('a' ≤ c ∧ c ≤ 'z') ∨ ('A' ≤ c ∧ c ≤ 'Z')

def isDigitChar (c : Char) : Bool := '0' ≤ c ∧ c ≤ '9'

/-- Go `net/url.validUserinfo`: the characters allowed (possibly
percent-escaped) in the userinfo component. -/
def validUserinfoChar (c : Char) : Bool :=
  isAlphaChar c ∨ isDigitChar c ∨
    c ∈ ['-', '.', '_', ':', '~', '!', '$', '&', '\'',
         '(', ')', '*', '+', ',', ';', '=', '%', '@']

def validUserinfo (s : Str) : Bool := s.all validUserinfoChar

/-- Control bytes make `url.Parse` fail. -/
def isCTL (c : Char) : Bool := c.toNat < 0x20 ∨ c.toNat = 0x7f

/-- Go `net/url.getScheme`: split a leading `scheme:`.  `none` is Go's
"missing protocol scheme" error; otherwise the pair is (scheme, rest),
with an empty scheme when the input has none. -/
def getSchemeAux (orig acc : Str) : Bool → Str → Option (Str × Str)
  | _, [] => some ([], orig)
  | first, c :: rest =>
    if isAlphaChar c then getSchemeAux orig (c :: acc) false rest
    else if isDigitChar c ∨ c ∈ ['+', '-', '.'] then
      if first then some ([], orig) else getSchemeAux orig (c :: acc) false rest
    else if c = ':' then
      if first then none else some (acc.reverse, rest)
    else some ([], orig)

def getScheme (s : Str) : Option (Str × Str) := getSchemeAux s [] true s

/-- The decoded user/password component of a URL (`net/url.Userinfo`). -/
structure Userinfo where
  username : Str
  password : Option Str
deriving DecidableEq, Repr

/-- The parts of `net/url.URL` the engine reads. -/
structure GoURL where
  scheme : Str
  opq : Str
  user : Option Userinfo
  host : Str
  path : Str
  rawQuery : Str
  fragment : Str
deriving DecidableEq, Repr

/-- Go `net/url.parseHost` for non-bracketed hosts: validate an optional
numeric port after the last `:`, then percent-decode. -/
def parseHost (host : Str) : Option Str :=
  if startsWithL host ['['] then none
  else
    match lastIdxOf ':' host with
    | none => unescape host
    | some i =>
      if (host.drop (i + 1)).all isDigitChar then unescape host else none

/-- Go `net/url.parseAuthority`: split at the last `@`, validate and
decode the userinfo, parse the host. -/
def parseAuthority (authority : Str) : Option (Option Userinfo × Str) :=
  match lastIdxOf '@' authority with
  | none => (parseHost authority).map (fun h => (none, h))
  | some i =>
    let userinfo := authority.take i
    let hostpart := authority.drop (i + 1)
    if ¬ validUserinfo userinfo then none
    else
      match parseHost hostpart with
      | none => none
      | some h =>
        match firstIdxOf ':' userinfo with
        | none => (unescape userinfo).map (fun u => (some ⟨u, none⟩, h))
        | some j =>
          match unescape (userinfo.take j), unescape (userinfo.drop (j + 1)) with
          | some u, some p => some (some ⟨u, some p⟩, h)
          | _, _ => none

/-- The body of Go `net/url.parse` (with `viaRequest = false`), after the
fragment has been cut off. -/
def parseMain (s : Str) : Option GoURL :=
  match getScheme s with
  | none => none
  | some (sch0, rest0) =>
    let sch := sch0.map Char.toLower
    let (rest1, rawQ) :=
      if hasSuffixL rest0 ['?'] ∧ ¬ rest0.dropLast.contains '?' then (rest0.dropLast, [])
      else
        match cutAtChar '?' rest0 with
        | (r, none) => (r, [])
        | (r, some q) => (r, q)
    if ¬ startsWithL rest1 ['/'] then
      if sch ≠ [] then some ⟨sch, rest1, none, [], [], rawQ, []⟩
      else
        let seg := (cutAtChar '/' rest1).1
        if seg.contains ':' then none
        else (unescape rest1).map (fun p => ⟨[], [], none, [], p, rawQ, []⟩)
    else
      if startsWithL rest1 ['/', '/'] ∧ (sch ≠ [] ∨ ¬ startsWithL rest1 ['/', '/', '/']) then
        let afterSlashes := rest1.drop 2
        let (authority, rest2) :=
          match firstIdxOf '/' afterSlashes with
          | none => (afterSlashes, [])
          | some i => (afterSlashes.take i, afterSlashes.drop i)
        match parseAuthority authority with
        | none => none
        | some (user, host) =>
          (unescape rest2).map (fun p => ⟨sch, [], user, host, p, rawQ, []⟩)
      else
        (unescape rest1).map (fun p => ⟨sch, [], none, [], p, rawQ, []⟩)

/-- Go `net/url.Parse`: cut the fragment, parse the rest, decode the
fragment. -/
def parseURL (rawURL : Str) : Option GoURL :=
  if rawURL.any isCTL then none
  else
    match cutAtChar '#' rawURL with
    | (u, none) => parseMain u
    | (u, some f) =>
      match parseMain u, unescape f with
      | some url, some fr => some { url with fragment := fr }
      | _, _ => none

/-- Go `URL.Hostname()`: the host with a valid numeric port stripped. -/
def hostnameOf (host : Str) : Str :=
  match lastIdxOf ':' host with
  | none => host
  | some i => if (host.drop (i + 1)).all isDigitChar then host.take i else host

/-! ## The location resolver (`newLocation`, `preProcessURL`) -/

/-- The percent-escaping of `/` (`%2F`). -/
def slashEsc : Str := ['%', '2', 'F']

/-- `preProcessURL` from `method.go`: replace any forward slashes in the
access key and secret before URI parsing.  `none` models the Go slice
panic `sub[5:]` commits when fewer than five bytes precede the first
`@`. -/
def preProcessURL (url : Str) : Option Str :=
  match firstIdxOf '@' url with
  | none => some url
  | some idx =>
    let sub := url.take idx
    if sub.length < 5 then none
    else
      let sub2 := sub.drop 5
      let tkns := splitOnChar ':' sub2
      let key := if tkns.length = 2 then tkns.headD [] else []
      let secret := if tkns.length = 2 then (tkns.drop 1).headD [] else []
      let processedKey := replaceAll ['/'] slashEsc key
      let processedSecret := replaceAll ['/'] slashEsc secret
      let p := replaceAll key processedKey url
      some (replaceAll secret processedSecret p)

inductive LocErr
  | parseError
  | missingTokens
deriving DecidableEq, Repr

/-- `objectLocation` from `method.go`. -/
structure ObjectLocation where
  uri : GoURL
  bucket : Str
  key : Str
deriving DecidableEq, Repr

/-- Outcome of `newLocation`: success, a returned error, or a Go runtime
panic (out-of-range slice). -/
inductive LocResult
  | ok (loc : ObjectLocation)
  | err (e : LocErr)
  | panicked
deriving DecidableEq, Repr

def locationMinTokensCount : Nat := 3

/-- The host/path classification of `newLocation` (after `url.Parse`
succeeded).  `uri.Path[1:]` in the two non-path-style branches panics
when the path is empty. -/
def newLocationFromURI (uri : GoURL) (s3Hostname : Str) : LocResult :=
  if uri.host = s3Hostname then
    let tokens := splitOnChar '/' uri.path
    if tokens.length < locationMinTokensCount then .err .missingTokens
    else .ok ⟨uri, (tokens.drop 1).headD [], joinWith '/' (tokens.drop 2)⟩
  else if hasSuffixL uri.host s3Hostname then
    match uri.path with
    | [] => .panicked
    | _ :: k => .ok ⟨uri, trimSuffixL uri.host ('.' :: s3Hostname), k⟩
  else
    match uri.path with
    | [] => .panicked
    | _ :: k => .ok ⟨uri, uri.host, k⟩

/-- `newLocation` from `method.go`. -/
def newLocation (value s3Hostname : Str) : LocResult :=
  match preProcessURL value with
  | none => .panicked
  | some processed =>
    match parseURL processed with
    | none => .err .parseError
    | some uri => newLocationFromURI uri s3Hostname

/-! ## Serialization of a URL (`net/url.URL.String`)

The engine embeds `s3Uri.String()` in every response message; the
re-escaping tables below follow Go's `shouldEscape`. -/

def hexDigitUpper (n : Nat) : Char :=
  if n < 10 then Char.ofNat ('0'.toNat + n) else Char.ofNat ('A'.toNat + n - 10)

def pctEnc (c : Char) : Str :=
  ['%', hexDigitUpper (c.toNat / 16 % 16), hexDigitUpper (c.toNat % 16)]

def isUnreservedMark (c : Char) : Bool := c ∈ ['-', '_', '.', '~']

/-- Go `shouldEscape(c, encodeUserPassword)`. -/
def shouldEscUserPassword (c : Char) : Bool :=
  ¬ (isAlphaChar c ∨ isDigitChar c ∨ isUnreservedMark c ∨ c ∈ ['$', '&', '+', ',', ';', '='])

/-- Go `shouldEscape(c, encodeHost)`. -/
def shouldEscHost (c : Char) : Bool :=
  ¬ (isAlphaChar c ∨ isDigitChar c ∨ isUnreservedMark c ∨
     c ∈ ['!', '$', '&', '\'', '(', ')', '*', '+', ',', ';', '=', ':', '[', ']', '<', '>', '"'])

/-- Go `shouldEscape(c, encodePath)`. -/
def shouldEscPath (c : Char) : Bool :=
  ¬ (isAlphaChar c ∨ isDigitChar c ∨ isUnreservedMark c ∨
     c ∈ ['$', '&', '+', ',', '/', ':', ';', '=', '@'])

/-- Go `shouldEscape(c, encodeFragment)`. -/
def shouldEscFragment (c : Char) : Bool :=
  ¬ (isAlphaChar c ∨ isDigitChar c ∨ isUnreservedMark c ∨
     c ∈ ['$', '&', '+', ',', '/', ':', ';', '=', '?', '@', '!', '(', ')', '*'])

def escapeWith (esc : Char → Bool) (s : Str) : Str :=
  s.flatMap (fun c => if esc c then pctEnc c else [c])

/-- Go `Userinfo.String`. -/
def userinfoString (ui : Userinfo) : Str :=
  escapeWith shouldEscUserPassword ui.username ++
    (match ui.password with
     | none => []
     | some p => ':' :: escapeWith shouldEscUserPassword p)

/-- Go `URL.String` for the URL shapes the engine produces. -/
def urlString (u : GoURL) : Str :=
  (if u.scheme ≠ [] then u.scheme ++ [':'] else []) ++
  (if u.opq ≠ [] then u.opq
   else
     (if u.scheme ≠ [] ∨ u.host ≠ [] ∨ u.user.isSome then
        ['/', '/'] ++
        (match u.user with
         | none => []
         | some ui => userinfoString ui ++ ['@']) ++
        escapeWith shouldEscHost u.host
      else []) ++
     (let p := escapeWith shouldEscPath u.path
      (if p ≠ [] ∧ ¬ startsWithL p ['/'] ∧ u.host ≠ [] then ['/'] else []) ++ p)) ++
  (if u.rawQuery ≠ [] then '?' :: u.rawQuery else []) ++
  (if u.fragment ≠ [] then '#' :: escapeWith shouldEscFragment u.fragment else [])

/-! ## Message model

The `Message`/`Header`/`Field` types and the two lookup accessors live in
the repository's message package, which is not among the provided source
files; they are modelled from the spec (sections 3 and 4.1). -/

/-- Modelled from the spec: a protocol message header — integer status
code plus human-readable description (spec section 3). -/
structure Header where
  status : Nat
  description : Str
deriving DecidableEq, Repr

/-- Modelled from the spec: one name/value field (spec section 3). -/
structure Field where
  name : Str
  value : Str
deriving DecidableEq, Repr

/-- Modelled from the spec: a message is a header plus an ordered field
list (spec section 3). -/
structure Message where
  header : Header
  fields : List Field
deriving DecidableEq, Repr

/-- Modelled from the spec: the message package's lookup-by-name-first
accessor (`GetFieldValue`), returning the first field with the given
name (spec sections 3 and 4.1). -/
def getFieldValue (m : Message) (name : Str) : Option Str :=
  ((m.fields.filter (fun f => f.name == name)).head?).map (·.value)

/-- Modelled from the spec: the lookup-by-name-all accessor
(`GetFieldList`, spec sections 3 and 4.1). -/
def getFieldList (m : Message) (name : Str) : List Field :=
  m.fields.filter (fun f => f.name == name)

/-! ## Constants from `method.go` -/

def hdCapabilities : Str := "Capabilities".toList
def hdGeneralLog : Str := "Log".toList
def hdStatus : Str := "Status".toList
def hdURIStart : Str := "URI Start".toList
def hdURIDone : Str := "URI Done".toList
def hdURIFailure : Str := "URI Failure".toList
def hdGeneralFailure : Str := "General Failure".toList

def fnCapabilities : Str := "Capabilities".toList
def fnConfigItem : Str := "Config-Item".toList
def fnSendConfig : Str := "Send-Config".toList
def fnPipeline : Str := "Pipeline".toList
def fnSingleInstance : Str := "Single-Instance".toList
def fnURI : Str := "URI".toList
def fnFilename : Str := "Filename".toList
def fnSize : Str := "Size".toList
def fnLastModified : Str := "Last-Modified".toList
def fnMessage : Str := "Message".toList
def fnMD5Hash : Str := "MD5-Hash".toList
def fnMD5SumHash : Str := "MD5Sum-Hash".toList
def fnSHA1Hash : Str := "SHA1-Hash".toList
def fnSHA256Hash : Str := "SHA256-Hash".toList
def fnSHA512Hash : Str := "SHA512-Hash".toList

def fvTrue : Str := "true".toList
def fvYes : Str := "yes".toList
def fvNotFound : Str := "The specified key does not exist.".toList
def fvConnecting : Str := "Connecting to s3.amazonaws.com".toList

def configItemRegion : Str := "Acquire::s3::region".toList
def configItemRole : Str := "Acquire::s3::role".toList
def configItemEndpoint : Str := "Acquire::s3::endpoint".toList

def errLocMissingTokensText : Str :=
  "location missing required number of tokens".toList
def errAcqURIText : Str :=
  "acquire message missing required field: URI".toList
def errAcqFilenameText : Str :=
  "acquire message missing required field: Filename".toList
def errAcqPasswordText : Str :=
  "acquire message missing required value: Password".toList

def locErrText : LocErr → Str
  | .parseError => "net/url parse error".toList
  | .missingTokens => errLocMissingTokensText

/-! ## Number formatting, digests, timestamps -/

def natToStr (n : Nat) : Str := Nat.toDigits 10 n

/-- Go `strconv.FormatInt(i, 10)`. -/
def intToStr (i : Int) : Str :=
  if i < 0 then '-' :: natToStr i.natAbs else natToStr i.natAbs

def hexDigitLower (n : Nat) : Char :=
  if n < 10 then Char.ofNat ('0'.toNat + n) else Char.ofNat ('a'.toNat + n - 10)

/-- Go `hex.EncodeToString` over a byte list. -/
def hexEncode (bs : List Nat) : Str :=
  bs.flatMap (fun b => [hexDigitLower (b / 16 % 16), hexDigitLower (b % 16)])

/-- Civil date from days since the Unix epoch (proleptic Gregorian). -/
def civilFromDays (z0 : Int) : Int × Int × Int :=
  let z := z0 + 719468
  let era := Int.fdiv z 146097
  let doe := z - era * 146097
  let yoe := Int.fdiv (doe - Int.fdiv doe 1460 + Int.fdiv doe 36524 - Int.fdiv doe 146096) 365
  let y := yoe + era * 400
  let doy := doe - (365 * yoe + Int.fdiv yoe 4 - Int.fdiv yoe 100)
  let mp := Int.fdiv (5 * doy + 2) 153
  let d := doy - Int.fdiv (153 * mp + 2) 5 + 1
  let m := mp + (if mp < 10 then 3 else -9)
  (y + (if m ≤ 2 then 1 else 0), m, d)

def weekdayNames : List Str :=
  ["Sun".toList, "Mon".toList, "Tue".toList, "Wed".toList,
   "Thu".toList, "Fri".toList, "Sat".toList]

def monthNames : List Str :=
  ["Jan".toList, "Feb".toList, "Mar".toList, "Apr".toList, "May".toList,
   "Jun".toList, "Jul".toList, "Aug".toList, "Sep".toList, "Oct".toList,
   "Nov".toList, "Dec".toList]

def pad2 (n : Int) : Str :=
  if n.natAbs < 10 then '0' :: natToStr n.natAbs else natToStr n.natAbs

def pad4 (n : Int) : Str :=
  let s := natToStr n.natAbs
  List.replicate (4 - s.length) '0' ++ s

/-- The `lastModified` field value: Go `t.In(gmt).Format(time.RFC1123)`
for a time `t` given as Unix seconds — layout
`Mon, 02 Jan 2006 15:04:05 GMT`. -/
def formatRFC1123GMT (t : Int) : Str :=
  let days := Int.fdiv t 86400
  let secs := t - days * 86400
  let ymd := civilFromDays days
  let wd := (days + 4) % 7
  ((weekdayNames.drop wd.toNat).headD []) ++ ", ".toList ++
    pad2 ymd.2.2 ++ [' '] ++ ((monthNames.drop (ymd.2.1 - 1).toNat).headD []) ++
    [' '] ++ pad4 ymd.1 ++ [' '] ++
    pad2 (secs / 3600) ++ [':'] ++ pad2 (secs / 60 % 60) ++ [':'] ++ pad2 (secs % 60) ++
    " GMT".toList

/-! ## The request engine (`Method`) -/

/-- The mutable fields of the `Method` struct. -/
structure MState where
  region : Str
  roleARN : Str
  endpoint : Str
  configured : Bool
deriving DecidableEq, Repr

/-- `New`: region defaults to `endpoints.UsEast1RegionID`, everything
else empty, latch unset. -/
def newMState : MState := ⟨"us-east-1".toList, [], [], false⟩

/-- Result of the store's metadata query (`client.HeadObject`): success
carries `ContentLength` and `LastModified` (Unix seconds); `reqFailure`
is an `awserr.RequestFailure` with its HTTP status code; `otherErr` is
any other error. -/
inductive HeadResult
  | ok (size : Int) (lastModified : Int)
  | reqFailure (statusCode : Nat) (errText : Str)
  | otherErr (errText : Str)
deriving DecidableEq, Repr

/-- Modelled from the spec: the Object Store Gateway and OS surface one
fetch request touches (spec section 6: `headObject`, `download`,
`defaultEndpointFor`; local file create/read of steps 9-10).
`s3EndpointURL` stands for this repository's region-to-endpoint
resolver, which is not among the provided sources; per the spec it maps
a region to the default endpoint URL or fails. -/
structure Gateway where
  s3EndpointURL : Str → Except Str GoURL
  sessionErr : Option Str
  head : HeadResult
  createErr : Option Str
  download : Except Str Int
  readFile : Except Str (List Nat)

/-- The four digest functions (`crypto/md5`, `crypto/sha1`,
`crypto/sha256`, `crypto/sha512`), abstract external collaborators
mapping file bytes to digest bytes. -/
structure HashFns where
  md5 : List Nat → List Nat
  sha1 : List Nat → List Nat
  sha256 : List Nat → List Nat
  sha512 : List Nat → List Nat

/-- `capabilities()` from `method.go`. -/
def capabilitiesMsg : Message :=
  ⟨⟨100, hdCapabilities⟩,
   [⟨fnSendConfig, fvTrue⟩, ⟨fnPipeline, fvTrue⟩, ⟨fnSingleInstance, fvYes⟩]⟩

/-- `requestStatus` from `method.go`. -/
def requestStatus (u : GoURL) (status : Str) : Message :=
  ⟨⟨102, hdStatus⟩, [⟨fnURI, urlString u⟩, ⟨fnMessage, status⟩]⟩

/-- `uriStart` from `method.go`. -/
def uriStartMsg (u : GoURL) (size : Int) (t : Int) : Message :=
  ⟨⟨200, hdURIStart⟩,
   [⟨fnURI, urlString u⟩, ⟨fnSize, intToStr size⟩,
    ⟨fnLastModified, formatRFC1123GMT t⟩]⟩

/-- `uriDone` from `method.go`: the digests are computed from the bytes
`os.ReadFile` returned for the just-written file, the MD5 digest twice
under two field names. -/
def uriDoneMsg (hf : HashFns) (u : GoURL) (size : Int) (t : Int)
    (filename : Str) (fileBytes : List Nat) : Message :=
  ⟨⟨201, hdURIDone⟩,
   [⟨fnURI, urlString u⟩, ⟨fnFilename, filename⟩, ⟨fnSize, intToStr size⟩,
    ⟨fnLastModified, formatRFC1123GMT t⟩,
    ⟨fnMD5Hash, hexEncode (hf.md5 fileBytes)⟩,
    ⟨fnMD5SumHash, hexEncode (hf.md5 fileBytes)⟩,
    ⟨fnSHA1Hash, hexEncode (hf.sha1 fileBytes)⟩,
    ⟨fnSHA256Hash, hexEncode (hf.sha256 fileBytes)⟩,
    ⟨fnSHA512Hash, hexEncode (hf.sha512 fileBytes)⟩]⟩

/-- `notFound` from `method.go`. -/
def notFoundMsg (u : GoURL) : Message :=
  ⟨⟨400, hdURIFailure⟩, [⟨fnURI, urlString u⟩, ⟨fnMessage, fvNotFound⟩]⟩

/-- `generalFailure` from `method.go`: newlines in the error text are
flattened to spaces. -/
def generalFailure (errText : Str) : Message :=
  ⟨⟨401, hdGeneralFailure⟩,
   [⟨fnMessage, replaceAll ['\n'] [' '] errText⟩]⟩

/-- `handleError` from `method.go`: a non-nil error prints one
`General Failure` message and exits the process with status 1; a nil
error does nothing.  The second component is the exit status, when the
call terminates the process. -/
def handleErrorM : Option Str → List Message × Option Nat
  | none => ([], none)
  | some e => ([generalFailure e], some 1)

/-- Control outcome of one handler. -/
inductive Outcome
  | done
  | blocked
  | panicked
  | exited (code : Nat)
deriving DecidableEq, Repr

/-- One handler's observable behavior: emitted messages in order, the
control outcome, and its total change to the WaitGroup counter. -/
structure RunResult where
  out : List Message
  outcome : Outcome
  wgDelta : Int
deriving DecidableEq, Repr

/-- The endpoint determination of `uriAcquire` (lines 317-329 of
`method.go`): parse the explicit override when configured, otherwise map
the region to its default endpoint. -/
def resolveEndpoint (gw : Gateway) (st : MState) : Except Str GoURL :=
  if st.endpoint ≠ [] then
    match parseURL st.endpoint with
    | none => .error ("parsing S3 endpoint ".toList ++ st.endpoint ++ ": parse error".toList)
    | some u => .ok u
  else
    match gw.s3EndpointURL st.region with
    | .error e => .error ("resolving S3 endpoint for region ".toList ++ st.region ++ ": ".toList ++ e)
    | .ok u => .ok u

/-- The static-credential validation inside `s3Client`: fatal exactly
when the locator carries a nonempty username but no password
(`user.Username() != ""` and `Password()` not ok; a nil `Userinfo`
yields an empty username). -/
def credsMissing (u : GoURL) : Bool :=
  match u.user with
  | none => false
  | some ui => ui.username != [] && !ui.password.isSome

/-- `uriAcquire` from `method.go`, over the abstract gateway and digest
collaborators, the engine state and the acquire message.  Fatal paths
(`handleError` with a non-nil error) emit one `General Failure` and exit
with status 1 without touching the WaitGroup; the not-found and success
paths decrement it. -/
def uriAcquire (gw : Gateway) (hf : HashFns) (st : MState) (msg : Message) : RunResult :=
  if ¬ st.configured then ⟨[], .blocked, 0⟩
  else
    match getFieldValue msg fnURI with
    | none => ⟨[generalFailure errAcqURIText], .exited 1, 0⟩
    | some uriVal =>
      match resolveEndpoint gw st with
      | .error e => ⟨[generalFailure e], .exited 1, 0⟩
      | .ok s3URL =>
        match newLocation uriVal (hostnameOf s3URL.host) with
        | .panicked => ⟨[], .panicked, 0⟩
        | .err e => ⟨[generalFailure (locErrText e)], .exited 1, 0⟩
        | .ok objLoc =>
          let conn := requestStatus objLoc.uri fvConnecting
          match gw.sessionErr with
          | some e => ⟨[conn, generalFailure ("creating AWS session: ".toList ++ e)], .exited 1, 0⟩
          | none =>
            if credsMissing objLoc.uri then
              ⟨[conn, generalFailure errAcqPasswordText], .exited 1, 0⟩
            else
              match gw.head with
              | .reqFailure code etext =>
                if code = 404 then ⟨[conn, notFoundMsg objLoc.uri], .done, -1⟩
                else ⟨[conn, generalFailure etext], .exited 1, 0⟩
              | .otherErr etext => ⟨[conn, generalFailure etext], .exited 1, 0⟩
              | .ok size t =>
                let start := uriStartMsg objLoc.uri size t
                match getFieldValue msg fnFilename with
                | none => ⟨[conn, start, generalFailure errAcqFilenameText], .exited 1, 0⟩
                | some filename =>
                  match gw.createErr with
                  | some e => ⟨[conn, start, generalFailure e], .exited 1, 0⟩
                  | none =>
                    match gw.download with
                    | .error e => ⟨[conn, start, generalFailure e], .exited 1, 0⟩
                    | .ok numBytes =>
                      match gw.readFile with
                      | .error e => ⟨[conn, start, generalFailure e], .exited 1, 0⟩
                      | .ok fileBytes =>
                        ⟨[conn, start, uriDoneMsg hf objLoc.uri numBytes t filename fileBytes],
                         .done, -1⟩

/-- One `Config-Item` application — the switch body in `configure`.
`none` models the Go index panic on `config[1]` when a recognized key
carries no `=value` part. -/
def applyConfigItem (st : MState) (v : Str) : Option MState :=
  let config := splitOnChar '=' v
  let key := config.headD []
  if key = configItemRegion then
    ((config.drop 1).head?).map (fun r => { st with region := r })
  else if key = configItemRole then
    ((config.drop 1).head?).map (fun r => { st with roleARN := r })
  else if key = configItemEndpoint then
    ((config.drop 1).head?).map (fun r => { st with endpoint := r })
  else some st

def applyConfigItems (st : MState) : List Str → Option MState
  | [] => some st
  | v :: vs =>
    match applyConfigItem st v with
    | none => none
    | some st2 => applyConfigItems st2 vs

/-- `configure` from `method.go`: fold the `Config-Item` fields into the
state, set the configured latch, decrement the WaitGroup by 1. -/
def configureRun (st : MState) (msg : Message) : Option (MState × Int) :=
  (applyConfigItems st ((getFieldList msg fnConfigItem).map (·.value))).map
    (fun st2 => ({ st2 with configured := true }, -1))

/-- The dispatch of `handleBytes`: code 600 goes to `uriAcquire`, code
601 to `configure`, and any other inbound code is dropped — no handler
runs and the WaitGroup is never decremented for it. -/
def handleBytesModel (gw : Gateway) (hf : HashFns) (st : MState) (m : Message) : RunResult :=
  if m.header.status = 600 then uriAcquire gw hf st m
  else if m.header.status = 601 then
    match configureRun st m with
    | none => ⟨[], .panicked, 0⟩
    | some (_, d) => ⟨[], .done, d⟩
  else ⟨[], .done, 0⟩

/-- An inbound header code the dispatcher ignores. -/
def unknownCode (m : Message) : Bool :=
  ¬ (m.header.status = 600 ∨ m.header.status = 601)

/-- Completion accounting of `New`/`readInput`/`Run`: the WaitGroup
starts at 1 (`New`), gains 1 per message read off the input stream,
loses 1 when the stream is exhausted, and changes by each handler's
delta.  `Run` returns — and the process exits 0 — exactly when the
counter reaches zero. -/
def finalCounter (handlerDeltas : List Int) : Int :=
  1 + handlerDeltas.length + handlerDeltas.sum - 1

/-! ## The configuration gate (`waitForConfiguration`)

An interleaving model for the ordering claim: the phases follow
`uriAcquire`'s call sequence — blocked at `waitForConfiguration`, then
credential resolution (`s3Client`), metadata query (`HeadObject`),
download (`downloader.Download`), termination. -/

inductive ReqPhase
  | gated
  | resolvingCreds
  | queryingMeta
  | downloading
  | finished
deriving DecidableEq, Repr

structure GateState where
  configured : Bool
  reqs : List ReqPhase
deriving DecidableEq, Repr

def phaseNext : ReqPhase → ReqPhase
  | .gated => .resolvingCreds
  | .resolvingCreds => .queryingMeta
  | .queryingMeta => .downloading
  | .downloading => .finished
  | .finished => .finished

/-- Interleaved execution of the configuration handler and the fetch
handlers.  `applyConfig` is `configure` setting the latch (no rule ever
clears it, matching the write-once latch).  `reqStep` advances one fetch
handler; it may leave `gated` only when the latch is set
(`waitForConfiguration` returns only once `configured` is true), and
its guard mentions nothing but the latch and the stepped handler. -/
inductive GateStep : GateState → GateState → Prop
  | applyConfig (s : GateState) :
      GateStep s { s with configured := true }
  | reqStep (s : GateState) (i : Nat) (ph : ReqPhase)
      (hi : s.reqs.get? i = some ph)
      (hgate : ph = .gated → s.configured = true)
      (hfin : ph ≠ .finished) :
      GateStep s { s with reqs := s.reqs.set i (phaseNext ph) }

def GateReachable (init s : GateState) : Prop :=
  Relation.ReflTransGen GateStep init s

/-- At startup the latch is unset and every pending fetch handler sits
at the gate. -/
def initGateState (n : Nat) : GateState := ⟨false, List.replicate n .gated⟩

/-! ## Concrete instances used by witnesses -/

/-- A default-region endpoint URL (`s3EndpointURL` result for
`us-east-1`). -/
def exEndpointURL : GoURL :=
  ⟨"https".toList, [], none, "s3.amazonaws.com".toList, [], [], []⟩

/-- A gateway whose metadata query returns the given result and whose
remaining operations succeed. -/
def exGateway (h : HeadResult) : Gateway :=
  ⟨fun _ => .ok exEndpointURL, none, h, none, .ok 9012, .ok [1, 2, 3]⟩

def exHash : HashFns := ⟨fun b => b, fun b => b, fun b => b, fun b => b⟩

def exStateConfigured : MState := ⟨"us-east-1".toList, [], [], true⟩

def exAcqMsg : Message :=
  ⟨⟨600, "URI Acquire".toList⟩,
   [⟨fnURI, "s3://ak:sk@s3.amazonaws.com/bucket/pkg.deb".toList⟩,
    ⟨fnFilename, "/tmp/pkg.deb".toList⟩]⟩

def exAcqMsgNoFilename : Message :=
  ⟨⟨600, "URI Acquire".toList⟩,
   [⟨fnURI, "s3://ak:sk@s3.amazonaws.com/bucket/pkg.deb".toList⟩]⟩

/-- The location the example acquire message resolves to (path-style). -/
def exObjLoc : ObjectLocation :=
  ⟨⟨"s3".toList, [], some ⟨"ak".toList, some "sk".toList⟩,
    "s3.amazonaws.com".toList, "/bucket/pkg.deb".toList, [], []⟩,
   "bucket".toList, "pkg.deb".toList⟩

def exCfgMsg : Message :=
  ⟨⟨601, "Configuration".toList⟩,
   [⟨fnConfigItem, "Acquire::s3::region=eu-west-1".toList⟩]⟩

/-- Bucket and key of a successful resolution, used to state
counterexamples without binders. -/
def locBucketKey : LocResult → Option (Str × Str)
  | .ok loc => some (loc.bucket, loc.key)
  | _ => none

/-- Password extracted by a successful resolution, used to state the
credential round-trip counterexample without binders. -/
def locPassword : LocResult → Option Str
  | .ok loc =>
    match loc.uri.user with
    | some ui => ui.password
    | none => none
  | _ => none

/-! ## Locators with embedded credentials (claim C4)

`preProcessURL`'s per-credential substitution `ReplaceAll(url, cred,
escaped)` is analysed through `escSlash` (the effect of escaping `/` in
one credential) and through occurrence-confinement conditions saying a
credential's text appears in the locator only at its own position. -/

/-- The effect of `strings.ReplaceAll(s, "/", "%2F")`. -/
def escSlash (s : Str) : Str := s.flatMap (fun c => if c = '/' then slashEsc else [c])

/-- Characters admissible in a credential for the round-trip: `/` or a
Go-valid userinfo character, excluding the structural `:`/`@` and the
escape-introducing `%`. -/
def credChar (c : Char) : Bool :=
  (c = '/' ∨ validUserinfoChar c = true) ∧ c ∉ [':', '@', '%'] ∧ isCTL c = false

/-- Characters admissible in the host part. -/
def hostChar (c : Char) : Bool :=
  isCTL c = false ∧ c ∉ ['/', ':', '@', '%', '?', '#', '[']

/-- Characters admissible in the path part. -/
def pathChar (c : Char) : Bool :=
  isCTL c = false ∧ c ∉ ['@', '%', '?', '#']

/-- Everything after the access key in a credentialed locator. -/
def credTail (p h pth : Str) : Str := ':' :: (p ++ '@' :: (h ++ pth))

/-- Everything after the secret in a credentialed locator. -/
def hostTail (h pth : Str) : Str := '@' :: (h ++ pth)

/-- A locator embedding raw credentials:
`s3://<u>:<p>@<host><path>`. -/
def locatorOf (u p h pth : Str) : Str := "s3://".toList ++ (u ++ credTail p h pth)

/-- The locator after the access key has been escaped but before the
secret has. -/
def midLocatorOf (u p h pth : Str) : Str :=
  "s3://".toList ++ (escSlash u ++ (':' :: (p ++ hostTail h pth)))

/-- The fully escaped locator `preProcessURL` hands to `url.Parse`. -/
def escLocatorOf (u p h pth : Str) : Str :=
  "s3://".toList ++ (escSlash u ++ (':' :: (escSlash p ++ hostTail h pth)))

/-- The same locator without credentials. -/
def bareLocatorOf (h pth : Str) : Str := "s3://".toList ++ (h ++ pth)

/-- Two resolutions agree on bucket/key segmentation (and on the error
or panic when resolution does not succeed). -/
def sameSegmentation : LocResult → LocResult → Prop
  | .ok l1, .ok l2 => l1.bucket = l2.bucket ∧ l1.key = l2.key
  | .err e1, .err e2 => e1 = e2
  | .panicked, .panicked => True
  | _, _ => False

/-- The invariant behind the configuration gate: until the latch is set,
every fetch handler is still at the gate. -/
def gateInv (s : GateState) : Prop :=
  s.configured = true ∨ ∀ ph ∈ s.reqs, ph = ReqPhase.gated

/-! ## Helper lemmas -/

theorem hasSuffixL_append (b suf : Str) : hasSuffixL (b ++ suf) suf = true := by
  simp [hasSuffixL]

theorem trimSuffixL_append (b suf : Str) : trimSuffixL (b ++ suf) suf = b := by
  unfold trimSuffixL
  rw [if_pos (hasSuffixL_append b suf)]
  have hlen : (b ++ suf).length - suf.length = b.length := by simp
  rw [hlen, List.take_left]

theorem trimSuffixL_no (s suf : Str) (h : hasSuffixL s suf = false) :
    trimSuffixL s suf = s := by
  unfold trimSuffixL
  rw [h]
  simp

theorem splitOnChar_not_mem {c : Char} {s : Str} (h : c ∉ s) :
    splitOnChar c s = [s] := by
  induction s with
  | nil => rfl
  | cons x xs ih =>
    have hx : x ≠ c := fun hc => h (hc ▸ List.mem_cons_self x xs)
    have hxs : c ∉ xs := fun hc => h (List.mem_cons_of_mem x hc)
    simp only [splitOnChar, if_neg hx, ih hxs]

theorem splitOnChar_append_cons {c : Char} {a : Str} (b : Str) (h : c ∉ a) :
    splitOnChar c (a ++ c :: b) = a :: splitOnChar c b := by
  induction a with
  | nil => simp [splitOnChar]
  | cons x xs ih =>
    have hx : x ≠ c := fun hc => h (hc ▸ List.mem_cons_self x xs)
    have hxs : c ∉ xs := fun hc => h (List.mem_cons_of_mem x hc)
    have hne : splitOnChar c (xs ++ c :: b) = xs :: splitOnChar c b := ih hxs
    simp only [List.cons_append, splitOnChar, if_neg hx, List.append_eq, hne]

theorem firstIdxOf_not_mem {c : Char} {s : Str} (h : c ∉ s) :
    firstIdxOf c s = none := by
  induction s with
  | nil => rfl
  | cons x xs ih =>
    have hx : x ≠ c := fun hc => h (hc ▸ List.mem_cons_self x xs)
    have hxs : c ∉ xs := fun hc => h (List.mem_cons_of_mem x hc)
    simp [firstIdxOf, hx, ih hxs]

theorem firstIdxOf_append_cons {c : Char} {a : Str} (b : Str) (h : c ∉ a) :
    firstIdxOf c (a ++ c :: b) = some a.length := by
  induction a with
  | nil => simp [firstIdxOf]
  | cons x xs ih =>
    have hx : x ≠ c := fun hc => h (hc ▸ List.mem_cons_self x xs)
    have hxs : c ∉ xs := fun hc => h (List.mem_cons_of_mem x hc)
    simp [firstIdxOf, hx, ih hxs]

theorem lastIdxOf_unique {c : Char} {a b : Str} (hb : c ∉ b) :
    lastIdxOf c (a ++ c :: b) = some a.length := by
  unfold lastIdxOf
  have hrev : (a ++ c :: b).reverse = b.reverse ++ c :: a.reverse := by
    simp
  have hbrev : c ∉ b.reverse := by simpa using hb
  rw [hrev, firstIdxOf_append_cons _ hbrev]
  simp

theorem isPrefixOf_nil_false {pat : Str} (h : pat ≠ []) :
    pat.isPrefixOf ([] : Str) = false := by
  cases pat with
  | nil => exact absurd rfl h
  | cons a as => rfl

theorem noOcc_of_bounded {pat s : Str} (hne : pat ≠ [])
    (h : ∀ i, i < s.length → pat.isPrefixOf (s.drop i) = false) :
    ∀ i, pat.isPrefixOf (s.drop i) = false := by
  intro i
  by_cases hi : i < s.length
  · exact h i hi
  · rw [List.drop_eq_nil_of_le (by omega)]
    exact isPrefixOf_nil_false hne

theorem raAux_fuel {pat repl : Str} (hne : pat ≠ []) :
    ∀ f1 f2 s, s.length ≤ f1 → s.length ≤ f2 →
      raAux pat repl f1 s = raAux pat repl f2 s := by
  intro f1
  induction f1 with
  | zero =>
    intro f2 s h1 h2
    have : s = [] := List.eq_nil_of_length_eq_zero (by omega)
    subst this
    cases f2 <;> rfl
  | succ a ih =>
    intro f2 s h1 h2
    cases s with
    | nil => cases f2 <;> rfl
    | cons c rest =>
      cases f2 with
      | zero => simp at h2
      | succ b =>
        show raAux pat repl (a + 1) (c :: rest) = raAux pat repl (b + 1) (c :: rest)
        unfold raAux
        by_cases hpre : pat.isPrefixOf (c :: rest) = true
        · rw [hpre]
          simp only [if_true]
          have hp1 : 1 ≤ pat.length := by
            cases pat with
            | nil => exact absurd rfl hne
            | cons _ _ => simp
          simp only [List.length_cons] at h1 h2
          have hlen : ((c :: rest).drop pat.length).length ≤ a := by
            simp only [List.length_drop, List.length_cons]
            omega
          have hlen2 : ((c :: rest).drop pat.length).length ≤ b := by
            simp only [List.length_drop, List.length_cons]
            omega
          rw [ih b ((c :: rest).drop pat.length) hlen hlen2]
        · rw [Bool.not_eq_true] at hpre
          rw [hpre]
          simp only [Bool.false_eq_true, if_false]
          simp only [List.length_cons] at h1 h2
          have hl1 : rest.length ≤ a := by omega
          have hl2 : rest.length ≤ b := by omega
          rw [ih b rest hl1 hl2]

theorem replaceAll_no_occ {pat repl s : Str} (hne : pat ≠ [])
    (h : ∀ i, pat.isPrefixOf (s.drop i) = false) :
    replaceAll pat repl s = s := by
  unfold replaceAll
  rw [if_neg hne]
  suffices haux : ∀ fuel s2, s2.length ≤ fuel →
      (∀ i, pat.isPrefixOf (s2.drop i) = false) → raAux pat repl fuel s2 = s2 by
    exact haux s.length s (le_refl _) h
  intro fuel
  induction fuel with
  | zero => intro s2 _ _; cases s2 <;> rfl
  | succ a ih =>
    intro s2 hlen hno
    cases s2 with
    | nil => rfl
    | cons c rest =>
      unfold raAux
      have h0 := hno 0
      simp only [List.drop_zero] at h0
      rw [h0]
      simp only [Bool.false_eq_true, if_false]
      have : raAux pat repl a rest = rest := by
        apply ih rest (by simp at hlen; omega)
        intro i
        have := hno (i + 1)
        simpa using this
      rw [this]

theorem isPrefixOf_append_self : ∀ (l t : Str), l.isPrefixOf (l ++ t) = true := by
  intro l t
  induction l with
  | nil => simp [List.isPrefixOf]
  | cons a as ih => simp [List.isPrefixOf, ih]

theorem raAux_cons_pos {pat repl : Str} {c : Char} {rest : Str} (f : Nat)
    (h : pat.isPrefixOf (c :: rest) = true) :
    raAux pat repl (f + 1) (c :: rest) =
      repl ++ raAux pat repl f ((c :: rest).drop pat.length) := by
  simp only [raAux]
  rw [h]
  simp

theorem raAux_cons_neg {pat repl : Str} {c : Char} {rest : Str} (f : Nat)
    (h : pat.isPrefixOf (c :: rest) = false) :
    raAux pat repl (f + 1) (c :: rest) = c :: raAux pat repl f rest := by
  simp only [raAux]
  rw [h]
  simp

theorem raAux_confined {pat repl : Str} (hne : pat ≠ []) :
    ∀ (pre post : Str) (fuel : Nat), (pre ++ pat ++ post).length ≤ fuel →
      (∀ i, i < pre.length → pat.isPrefixOf ((pre ++ pat ++ post).drop i) = false) →
      raAux pat repl fuel (pre ++ pat ++ post) = pre ++ repl ++ replaceAll pat repl post := by
  intro pre
  induction pre with
  | nil =>
    intro post fuel hfuel hpre
    have hp1 : 1 ≤ pat.length := by
      cases pat with
      | nil => exact absurd rfl hne
      | cons _ _ => simp
    simp only [List.nil_append] at hfuel ⊢
    cases fuel with
    | zero =>
      exfalso
      simp only [List.length_append] at hfuel
      omega
    | succ f =>
      have hflen : post.length ≤ f := by
        simp only [List.length_append] at hfuel
        omega
      obtain ⟨a, as, hpat⟩ : ∃ a as, pat = a :: as := by
        cases pat with
        | nil => exact absurd rfl hne
        | cons a as => exact ⟨a, as, rfl⟩
      have hshape : pat ++ post = a :: (as ++ post) := by rw [hpat]; rfl
      have hstep := @raAux_cons_pos pat repl a (as ++ post) f
        (show pat.isPrefixOf (a :: (as ++ post)) = true by
          rw [← hshape]; exact isPrefixOf_append_self pat post)
      rw [hshape, hstep, ← hshape, List.drop_left pat post,
        raAux_fuel hne f post.length post hflen (le_refl _)]
      unfold replaceAll
      rw [if_neg hne]
  | cons c pre2 ih =>
    intro post fuel hfuel hpre
    cases fuel with
    | zero =>
      exfalso
      simp only [List.cons_append, List.length_cons] at hfuel
      omega
    | succ f =>
      have hshape : (c :: pre2) ++ pat ++ post = c :: (pre2 ++ pat ++ post) := by simp
      have h0 := hpre 0 (by simp)
      simp only [List.drop_zero, hshape] at h0
      have hstep := @raAux_cons_neg pat repl c (pre2 ++ pat ++ post) f h0
      rw [hshape, hstep]
      have hrec := ih post f
        (by
          simp only [hshape, List.length_cons] at hfuel
          omega)
        (by
          intro i hi
          have := hpre (i + 1) (by simp; omega)
          simpa [hshape] using this)
      rw [hrec]
      simp

theorem replaceAll_confined {pat repl : Str} (hne : pat ≠ [])
    (pre post : Str)
    (hpre : ∀ i, i < pre.length → pat.isPrefixOf ((pre ++ pat ++ post).drop i) = false) :
    replaceAll pat repl (pre ++ pat ++ post) = pre ++ repl ++ replaceAll pat repl post :=
  calc replaceAll pat repl (pre ++ pat ++ post)
      = raAux pat repl (pre ++ pat ++ post).length (pre ++ pat ++ post) := by
        unfold replaceAll
        rw [if_neg hne]
    _ = pre ++ repl ++ replaceAll pat repl post :=
        raAux_confined hne pre post _ (le_refl _) hpre

theorem unescape_cons_ne {c : Char} {rest : Str} (hc : c ≠ '%') :
    unescape (c :: rest) = (unescape rest).map (c :: ·) := by
  conv_lhs => unfold unescape
  split
  · rename_i heq; cases heq
  · rename_i heq
    injection heq with h1 h2
    exact absurd h1 hc
  · rename_i heq
    injection heq with h1 h2
    exact absurd h1 hc
  · rename_i heq
    injection heq with h1 h2
    exact absurd h1 hc
  · rename_i c2 rest2 hn1 hn2 hn3 heq
    injection heq with h1 h2
    subst h1
    subst h2
    rfl

theorem escSlash_cons (c : Char) (s : Str) :
    escSlash (c :: s) = (if c = '/' then slashEsc else [c]) ++ escSlash s := by
  simp [escSlash]

theorem raAux_slash : ∀ (f : Nat) (s : Str), s.length ≤ f →
    raAux ['/'] slashEsc f s = escSlash s := by
  intro f
  induction f with
  | zero =>
    intro s h
    have : s = [] := List.eq_nil_of_length_eq_zero (by omega)
    subst this
    rfl
  | succ a ih =>
    intro s h
    cases s with
    | nil => rfl
    | cons c rest =>
      simp only [List.length_cons] at h
      by_cases hc : c = '/'
      · subst hc
        have hpre : (['/'] : Str).isPrefixOf ('/' :: rest) = true := by
          simp [List.isPrefixOf]
        rw [raAux_cons_pos a hpre]
        have hdrop : ('/' :: rest).drop (['/'] : Str).length = rest := rfl
        rw [hdrop, ih rest (by omega), escSlash_cons]
        simp
      · have hpre : (['/'] : Str).isPrefixOf (c :: rest) = false := by
          simp [List.isPrefixOf]
          exact fun hcc => absurd hcc.symm hc
        rw [raAux_cons_neg a hpre, ih rest (by omega), escSlash_cons]
        simp [hc]

theorem replaceAll_slash (s : Str) : replaceAll ['/'] slashEsc s = escSlash s := by
  unfold replaceAll
  rw [if_neg (by simp)]
  exact raAux_slash s.length s (le_refl _)

theorem mem_escSlash {c : Char} {s : Str} (h : c ∈ escSlash s) :
    (c ∈ s ∧ c ≠ '/') ∨ c ∈ slashEsc := by
  induction s with
  | nil => cases h
  | cons x xs ih =>
    rw [escSlash_cons] at h
    rcases List.mem_append.mp h with h1 | h1
    · by_cases hx : x = '/'
      · rw [if_pos hx] at h1
        right; exact h1
      · rw [if_neg hx] at h1
        have h2 : c = x := List.mem_singleton.mp h1
        subst h2
        exact Or.inl ⟨List.mem_cons_self c xs, hx⟩
    · rcases ih h1 with ⟨h2, h3⟩ | h2
      · exact Or.inl ⟨List.mem_cons_of_mem x h2, h3⟩
      · exact Or.inr h2

theorem escSlash_not_mem {c : Char} {s : Str} (hc : c ∉ s) (h2 : c ∉ slashEsc) :
    c ∉ escSlash s := by
  intro hmem
  rcases mem_escSlash hmem with ⟨h3, _⟩ | h3
  · exact hc h3
  · exact h2 h3

theorem slash_not_mem_escSlash (s : Str) : '/' ∉ escSlash s := by
  intro hmem
  rcases mem_escSlash hmem with ⟨_, h3⟩ | h3
  · exact h3 rfl
  · exact absurd h3 (by decide)

theorem unescape_pct {h1 h2 : Char} {rest : Str} {a b : Nat}
    (ha : hexVal h1 = some a) (hb : hexVal h2 = some b) :
    unescape ('%' :: h1 :: h2 :: rest) =
      (unescape rest).map (Char.ofNat (16 * a + b) :: ·) := by
  conv_lhs => unfold unescape
  simp [ha, hb]

theorem unescape_no_pct : ∀ {s : Str}, '%' ∉ s → unescape s = some s := by
  intro s
  induction s with
  | nil => intro _; rfl
  | cons c rest ih =>
    intro h
    have hc : c ≠ '%' := fun hcc => h (hcc ▸ List.mem_cons_self c rest)
    have hrest : '%' ∉ rest := fun hm => h (List.mem_cons_of_mem c hm)
    rw [unescape_cons_ne hc, ih hrest]
    rfl

theorem unescape_escSlash : ∀ {s : Str}, '%' ∉ s → unescape (escSlash s) = some s := by
  intro s
  induction s with
  | nil => intro _; rfl
  | cons c rest ih =>
    intro h
    have hc : c ≠ '%' := fun hcc => h (hcc ▸ List.mem_cons_self c rest)
    have hrest := ih (fun hm => h (List.mem_cons_of_mem c hm))
    by_cases hcs : c = '/'
    · subst hcs
      rw [escSlash_cons, if_pos rfl]
      show unescape ('%' :: '2' :: 'F' :: escSlash rest) = some ('/' :: rest)
      rw [unescape_pct (show hexVal '2' = some 2 by decide)
        (show hexVal 'F' = some 15 by decide), hrest]
      have hch : Char.ofNat (16 * 2 + 15) = '/' := by decide
      rw [hch]
      rfl
    · rw [escSlash_cons, if_neg hcs]
      show unescape (c :: escSlash rest) = some (c :: rest)
      rw [unescape_cons_ne hc, hrest]
      rfl

theorem validUserinfo_escSlash {s : Str} (h : ∀ c ∈ s, credChar c = true) :
    ∀ c ∈ escSlash s, validUserinfoChar c = true := by
  intro c hc
  rcases mem_escSlash hc with ⟨h1, h2⟩ | h1
  · have := h c h1
    simp only [credChar, Bool.decide_and, Bool.and_eq_true, decide_eq_true_eq] at this
    rcases this.1 with h3 | h3
    · exact absurd h3 h2
    · exact h3
  · have h5 : c = '%' ∨ c = '2' ∨ c = 'F' := by
      simpa [slashEsc] using h1
    rcases h5 with h6 | h6 | h6 <;> (subst h6; decide)


theorem gateInv_step {s s2 : GateState} (hstep : GateStep s s2) (hinv : gateInv s) :
    gateInv s2 := by
  cases hstep with
  | applyConfig => left; rfl
  | reqStep i ph hi hgate hfin =>
    rcases hinv with hc | hall
    · left; exact hc
    · left; exact hgate (hall ph (List.get?_mem hi))

theorem gateInv_reachable {n : Nat} {s : GateState}
    (h : GateReachable (initGateState n) s) : gateInv s := by
  induction h with
  | refl => right; intro ph hph; exact List.eq_of_mem_replicate hph
  | tail hsteps hstep ih => exact gateInv_step hstep ih

theorem preProcess_locator (u p h pth : Str)
    (hu : u ≠ []) (hp : p ≠ [])
    (hcu : ∀ c ∈ u, credChar c = true)
    (hcp : ∀ c ∈ p, credChar c = true)
    (hh : ∀ c ∈ h, hostChar c = true)
    (h1 : ∀ i, i < 5 → u.isPrefixOf ((locatorOf u p h pth).drop i) = false)
    (h2 : ∀ i, i < (credTail p h pth).length →
        u.isPrefixOf ((credTail p h pth).drop i) = false)
    (h3 : ∀ i, i < 6 + (escSlash u).length →
        p.isPrefixOf ((midLocatorOf u p h pth).drop i) = false)
    (h4 : ∀ i, i < (hostTail h pth).length →
        p.isPrefixOf ((hostTail h pth).drop i) = false) :
    preProcessURL (locatorOf u p h pth) = some (escLocatorOf u p h pth) := by
  have hatu : '@' ∉ u := fun hm => absurd (hcu '@' hm) (by decide)
  have hatp : '@' ∉ p := fun hm => absurd (hcp '@' hm) (by decide)
  have hath : '@' ∉ h := fun hm => absurd (hh '@' hm) (by decide)
  have hcolu : ':' ∉ u := fun hm => absurd (hcu ':' hm) (by decide)
  have hcolp : ':' ∉ p := fun hm => absurd (hcp ':' hm) (by decide)
  have hatA : '@' ∉ ("s3://".toList ++ u ++ ':' :: p) := by
    intro hm
    rcases List.mem_append.mp hm with hm1 | hm1
    · rcases List.mem_append.mp hm1 with hm2 | hm2
      · revert hm2; decide
      · exact hatu hm2
    · rcases List.mem_cons.mp hm1 with hm2 | hm2
      · cases hm2
      · exact hatp hm2
  have hA : locatorOf u p h pth = ("s3://".toList ++ u ++ ':' :: p) ++ '@' :: (h ++ pth) := by
    simp [locatorOf, credTail]
  have hidx : firstIdxOf '@' (locatorOf u p h pth) =
      some ("s3://".toList ++ u ++ ':' :: p).length := by
    rw [hA]; exact firstIdxOf_append_cons _ hatA
  have htake : List.take ("s3://".toList ++ u ++ ':' :: p).length (locatorOf u p h pth)
      = "s3://".toList ++ u ++ ':' :: p := by
    rw [hA]; exact List.take_left _ _
  have hlen5 : ¬ ("s3://".toList ++ u ++ ':' :: p).length < 5 := by
    simp [List.length_append]
  have hdrop5 : List.drop 5 ("s3://".toList ++ u ++ ':' :: p) = u ++ ':' :: p := by
    have hsh : ("s3://".toList ++ u ++ ':' :: p) = "s3://".toList ++ (u ++ ':' :: p) := by
      simp
    rw [hsh]
    exact List.drop_left' (by decide)
  have htkns : splitOnChar ':' (u ++ ':' :: p) = [u, p] := by
    rw [splitOnChar_append_cons p hcolu, splitOnChar_not_mem hcolp]
  have hB : locatorOf u p h pth = "s3://".toList ++ u ++ credTail p h pth := by
    simp [locatorOf]
  have hr1 : replaceAll u (escSlash u) (locatorOf u p h pth) =
      "s3://".toList ++ escSlash u ++ credTail p h pth := by
    rw [hB]
    rw [replaceAll_confined hu ("s3://".toList) (credTail p h pth) ?_]
    · rw [replaceAll_no_occ hu (noOcc_of_bounded hu h2)]
    · intro i hi
      have h5 : i < 5 := by simpa using hi
      have h6 := h1 i h5
      rw [hB] at h6
      exact h6
  have hmid : "s3://".toList ++ escSlash u ++ credTail p h pth =
      ("s3://".toList ++ escSlash u ++ [':']) ++ p ++ hostTail h pth := by
    simp [credTail, hostTail]
  have hmid2 : midLocatorOf u p h pth =
      ("s3://".toList ++ escSlash u ++ [':']) ++ p ++ hostTail h pth := by
    simp [midLocatorOf, hostTail]
  have hlen2 : ("s3://".toList ++ escSlash u ++ [':']).length = 6 + (escSlash u).length := by
    simp [List.length_append]
    omega
  have hr2 : replaceAll p (escSlash p) ("s3://".toList ++ escSlash u ++ credTail p h pth) =
      escLocatorOf u p h pth := by
    rw [hmid]
    rw [replaceAll_confined hp (("s3://".toList ++ escSlash u ++ [':'])) (hostTail h pth) ?_]
    · rw [replaceAll_no_occ hp (noOcc_of_bounded hp h4)]
      simp [escLocatorOf, hostTail]
    · intro i hi
      rw [hlen2] at hi
      have h6 := h3 i hi
      rw [hmid2] at h6
      exact h6
  unfold preProcessURL
  rw [hidx]
  simp only [htake, if_neg hlen5, hdrop5, htkns]
  simp only [List.length_cons, List.length_nil, List.headD_cons, List.drop_one, List.tail_cons]
  simp only [if_true]
  rw [replaceAll_slash, replaceAll_slash, hr1, hr2]

theorem lastIdxOf_not_mem {c : Char} {s : Str} (h : c ∉ s) :
    lastIdxOf c s = none := by
  unfold lastIdxOf
  rw [firstIdxOf_not_mem (by simpa using h)]
  rfl

theorem hasSuffixL_single_not_mem {c : Char} {s : Str} (h : c ∉ s) :
    hasSuffixL s [c] = false := by
  by_contra hcon
  rw [Bool.not_eq_false] at hcon
  simp only [hasSuffixL, List.isSuffixOf_iff_suffix] at hcon
  obtain ⟨t, ht⟩ := hcon
  exact h (ht ▸ List.mem_append.mpr (Or.inr (List.mem_singleton_self c)))

theorem parseHost_plain {h : Str} (hh : ∀ c ∈ h, hostChar c = true) :
    parseHost h = some h := by
  have hcol : ':' ∉ h := fun hm => absurd (hh ':' hm) (by decide)
  have hpct : '%' ∉ h := fun hm => absurd (hh '%' hm) (by decide)
  have hbr : startsWithL h ['['] = false := by
    cases h with
    | nil => rfl
    | cons c rest =>
      have hc : c ≠ '[' := fun hc =>
        absurd (hh c (List.mem_cons_self c rest)) (by rw [hc]; decide)
      simp only [startsWithL, List.isPrefixOf, List.isPrefixOf_nil_left,
        Bool.and_true]
      exact beq_eq_false_iff_ne.mpr (fun he => hc he.symm)
  unfold parseHost
  rw [hbr]
  simp only [Bool.false_eq_true, if_false]
  rw [lastIdxOf_not_mem hcol]
  exact unescape_no_pct hpct

theorem parseAuthority_plain {h : Str} (hh : ∀ c ∈ h, hostChar c = true) :
    parseAuthority h = some (none, h) := by
  have hat : '@' ∉ h := fun hm => absurd (hh '@' hm) (by decide)
  unfold parseAuthority
  rw [lastIdxOf_not_mem hat, parseHost_plain hh]
  rfl

theorem parseAuthority_cred (u p h : Str)
    (hcu : ∀ c ∈ u, credChar c = true)
    (hcp : ∀ c ∈ p, credChar c = true)
    (hh : ∀ c ∈ h, hostChar c = true) :
    parseAuthority ((escSlash u ++ ':' :: escSlash p) ++ '@' :: h) =
      some (some ⟨u, some p⟩, h) := by
  have hat : '@' ∉ h := fun hm => absurd (hh '@' hm) (by decide)
  have hpctu : '%' ∉ u := fun hm => absurd (hcu '%' hm) (by decide)
  have hpctp : '%' ∉ p := fun hm => absurd (hcp '%' hm) (by decide)
  have hcolu : ':' ∉ u := fun hm => absurd (hcu ':' hm) (by decide)
  have hcolesc : ':' ∉ escSlash u := escSlash_not_mem hcolu (by decide)
  have hvalid : validUserinfo (escSlash u ++ ':' :: escSlash p) = true := by
    unfold validUserinfo
    rw [List.all_eq_true]
    intro c hc
    rcases List.mem_append.mp hc with hm | hm
    · exact validUserinfo_escSlash hcu c hm
    · rcases List.mem_cons.mp hm with hm2 | hm2
      · subst hm2; decide
      · exact validUserinfo_escSlash hcp c hm2
  have hdropA : List.drop ((escSlash u ++ ':' :: escSlash p).length + 1)
      ((escSlash u ++ ':' :: escSlash p) ++ '@' :: h) = h := by
    have hsh2 : (escSlash u ++ ':' :: escSlash p) ++ '@' :: h =
        ((escSlash u ++ ':' :: escSlash p) ++ ['@']) ++ h := by simp
    rw [hsh2]
    exact List.drop_left' (by simp; omega)
  have hdropU : List.drop ((escSlash u).length + 1) (escSlash u ++ ':' :: escSlash p) =
      escSlash p := by
    have hsh3 : escSlash u ++ ':' :: escSlash p = (escSlash u ++ [':']) ++ escSlash p := by
      simp
    rw [hsh3]
    exact List.drop_left' (by simp)
  unfold parseAuthority
  rw [lastIdxOf_unique hat]
  dsimp only
  rw [List.take_left, hdropA, hvalid]
  simp only [not_true, if_false, ite_false, not_true_eq_false, reduceIte]
  rw [parseHost_plain hh]
  dsimp only
  rw [firstIdxOf_append_cons (escSlash p) hcolesc]
  dsimp only
  rw [List.take_left, hdropU, unescape_escSlash hpctu, unescape_escSlash hpctp]

theorem getScheme_s3 (r : Str) :
    getScheme ('s' :: '3' :: ':' :: r) = some (['s', '3'], r) := rfl

theorem parseMain_cred (u p h pth k : Str)
    (hcu : ∀ c ∈ u, credChar c = true)
    (hcp : ∀ c ∈ p, credChar c = true)
    (hh : ∀ c ∈ h, hostChar c = true)
    (hpth : pth = '/' :: k)
    (hpc : ∀ c ∈ pth, pathChar c = true) :
    parseMain (escLocatorOf u p h pth) =
      some ⟨['s', '3'], [], some ⟨u, some p⟩, h, pth, [], []⟩ := by
  subst hpth
  have hqu : '?' ∉ u := fun hm => absurd (hcu '?' hm) (by decide)
  have hqp : '?' ∉ p := fun hm => absurd (hcp '?' hm) (by decide)
  have hqh : '?' ∉ h := fun hm => absurd (hh '?' hm) (by decide)
  have hqpth : '?' ∉ ('/' :: k) := fun hm => absurd (hpc '?' hm) (by decide)
  have hsu : '/' ∉ escSlash u := slash_not_mem_escSlash u
  have hsp : '/' ∉ escSlash p := slash_not_mem_escSlash p
  have hsh : '/' ∉ h := fun hm => absurd (hh '/' hm) (by decide)
  have hpctpth : '%' ∉ ('/' :: k) := fun hm => absurd (hpc '%' hm) (by decide)
  have hq0 : '?' ∉ ('/' :: '/' ::
      (((escSlash u ++ ':' :: escSlash p) ++ '@' :: h) ++ '/' :: k)) := by
    intro hm
    rcases List.mem_cons.mp hm with hm1 | hm1
    · cases hm1
    rcases List.mem_cons.mp hm1 with hm2 | hm2
    · cases hm2
    rcases List.mem_append.mp hm2 with hm3 | hm3
    · rcases List.mem_append.mp hm3 with hm4 | hm4
      · rcases List.mem_append.mp hm4 with hm5 | hm5
        · exact escSlash_not_mem hqu (by decide) hm5
        · rcases List.mem_cons.mp hm5 with hm6 | hm6
          · cases hm6
          · exact escSlash_not_mem hqp (by decide) hm6
      · rcases List.mem_cons.mp hm4 with hm5 | hm5
        · cases hm5
        · exact hqh hm5
    · exact hqpth hm3
  have hslash_auth : '/' ∉ ((escSlash u ++ ':' :: escSlash p) ++ '@' :: h) := by
    intro hm
    rcases List.mem_append.mp hm with hm1 | hm1
    · rcases List.mem_append.mp hm1 with hm2 | hm2
      · exact hsu hm2
      · rcases List.mem_cons.mp hm2 with hm3 | hm3
        · cases hm3
        · exact hsp hm3
    · rcases List.mem_cons.mp hm1 with hm2 | hm2
      · cases hm2
      · exact hsh hm2
  have hE : escLocatorOf u p h ('/' :: k) =
      's' :: '3' :: ':' :: '/' :: '/' ::
        (((escSlash u ++ ':' :: escSlash p) ++ '@' :: h) ++ '/' :: k) := by
    simp [escLocatorOf, hostTail]
  rw [hE]
  unfold parseMain
  rw [getScheme_s3]
  dsimp only
  have hnosuf : hasSuffixL ('/' :: '/' ::
      (((escSlash u ++ ':' :: escSlash p) ++ '@' :: h) ++ '/' :: k)) ['?'] = false :=
    hasSuffixL_single_not_mem hq0
  rw [hnosuf]
  simp only [Bool.false_eq_true, false_and, if_false, ite_false, reduceIte]
  rw [show cutAtChar '?' ('/' :: '/' ::
      (((escSlash u ++ ':' :: escSlash p) ++ '@' :: h) ++ '/' :: k)) =
      ('/' :: '/' :: (((escSlash u ++ ':' :: escSlash p) ++ '@' :: h) ++ '/' :: k), none) from by
    unfold cutAtChar
    rw [firstIdxOf_not_mem hq0]]
  dsimp only
  rw [show startsWithL ('/' :: '/' ::
      (((escSlash u ++ ':' :: escSlash p) ++ '@' :: h) ++ '/' :: k)) ['/'] = true from by
        simp [startsWithL, List.isPrefixOf],
    show startsWithL ('/' :: '/' ::
      (((escSlash u ++ ':' :: escSlash p) ++ '@' :: h) ++ '/' :: k)) ['/', '/'] = true from by
        simp [startsWithL, List.isPrefixOf]]
  simp only [not_true, Bool.true_eq_false, if_false, ite_false, reduceIte, List.map_cons,
    List.map_nil, ne_eq, List.cons_ne_nil, not_false_iff, true_or, and_true, if_true, ite_true,
    true_and, List.drop_succ_cons, List.drop_zero]
  rw [firstIdxOf_append_cons k hslash_auth]
  dsimp only
  rw [List.take_left, List.drop_left, parseAuthority_cred u p h hcu hcp hh]
  dsimp only
  rw [unescape_no_pct hpctpth]
  simp [Char.toLower]

theorem parseMain_bare (h pth k : Str)
    (hh : ∀ c ∈ h, hostChar c = true)
    (hpth : pth = '/' :: k)
    (hpc : ∀ c ∈ pth, pathChar c = true) :
    parseMain (bareLocatorOf h pth) =
      some ⟨['s', '3'], [], none, h, pth, [], []⟩ := by
  subst hpth
  have hqh : '?' ∉ h := fun hm => absurd (hh '?' hm) (by decide)
  have hqpth : '?' ∉ ('/' :: k) := fun hm => absurd (hpc '?' hm) (by decide)
  have hsh : '/' ∉ h := fun hm => absurd (hh '/' hm) (by decide)
  have hpctpth : '%' ∉ ('/' :: k) := fun hm => absurd (hpc '%' hm) (by decide)
  have hq0 : '?' ∉ ('/' :: '/' :: (h ++ '/' :: k)) := by
    intro hm
    rcases List.mem_cons.mp hm with hm1 | hm1
    · cases hm1
    rcases List.mem_cons.mp hm1 with hm2 | hm2
    · cases hm2
    rcases List.mem_append.mp hm2 with hm3 | hm3
    · exact hqh hm3
    · exact hqpth hm3
  have hE : bareLocatorOf h ('/' :: k) =
      's' :: '3' :: ':' :: '/' :: '/' :: (h ++ '/' :: k) := by
    simp [bareLocatorOf]
  rw [hE]
  unfold parseMain
  rw [getScheme_s3]
  dsimp only
  rw [hasSuffixL_single_not_mem hq0]
  simp only [Bool.false_eq_true, false_and, if_false, ite_false, reduceIte]
  rw [show cutAtChar '?' ('/' :: '/' :: (h ++ '/' :: k)) =
      ('/' :: '/' :: (h ++ '/' :: k), none) from by
    unfold cutAtChar
    rw [firstIdxOf_not_mem hq0]]
  dsimp only
  rw [show startsWithL ('/' :: '/' :: (h ++ '/' :: k)) ['/'] = true from by
        simp [startsWithL, List.isPrefixOf],
    show startsWithL ('/' :: '/' :: (h ++ '/' :: k)) ['/', '/'] = true from by
        simp [startsWithL, List.isPrefixOf]]
  simp only [not_true, Bool.true_eq_false, if_false, ite_false, reduceIte, List.map_cons,
    List.map_nil, ne_eq, List.cons_ne_nil, not_false_iff, true_or, and_true, if_true, ite_true,
    true_and, List.drop_succ_cons, List.drop_zero]
  rw [firstIdxOf_append_cons k hsh]
  dsimp only
  rw [List.take_left, List.drop_left, parseAuthority_plain hh]
  dsimp only
  rw [unescape_no_pct hpctpth]
  simp [Char.toLower]

theorem parseURL_of_parseMain {s : Str} {url : GoURL}
    (hctl : ∀ c ∈ s, isCTL c = false)
    (hhash : '#' ∉ s)
    (hmain : parseMain s = some url) :
    parseURL s = some url := by
  unfold parseURL
  have hany : s.any isCTL = false := by
    rw [List.any_eq_false]
    intro c hc
    rw [hctl c hc]
    exact Bool.false_ne_true
  rw [hany]
  simp only [Bool.false_eq_true, if_false, ite_false, reduceIte]
  rw [show cutAtChar '#' s = (s, none) from by
    unfold cutAtChar
    rw [firstIdxOf_not_mem hhash]]
  exact hmain

theorem sameSeg_fromURI (u1 u2 : GoURL) (hhost : u1.host = u2.host)
    (hpathEq : u1.path = u2.path) (hostname : Str) :
    sameSegmentation (newLocationFromURI u1 hostname) (newLocationFromURI u2 hostname) := by
  unfold newLocationFromURI
  rw [hhost, hpathEq]
  by_cases hcase : u2.host = hostname
  · rw [if_pos hcase, if_pos hcase]
    by_cases hlen : (splitOnChar '/' u2.path).length < locationMinTokensCount
    · rw [if_pos hlen, if_pos hlen]
      simp [sameSegmentation]
    · rw [if_neg hlen, if_neg hlen]
      simp [sameSegmentation]
  · rw [if_neg hcase, if_neg hcase]
    by_cases hsuf : hasSuffixL u2.host hostname = true
    · rw [hsuf]
      simp only [if_true]
      cases u2.path with
      | nil => simp [sameSegmentation]
      | cons c rest => simp [sameSegmentation]
    · rw [Bool.not_eq_true] at hsuf
      rw [hsuf]
      simp only [Bool.false_eq_true, if_false]
      cases u2.path with
      | nil => simp [sameSegmentation]
      | cons c rest => simp [sameSegmentation]

theorem credChar_hash (c : Char) (h : credChar c = true) : c ≠ '#' :=
  fun heq => absurd (heq ▸ h) (by decide)

theorem credChar_ctl (c : Char) (h : credChar c = true) : isCTL c = false := by
  simp only [credChar, Bool.decide_and, Bool.and_eq_true, decide_eq_true_eq] at h
  exact h.2.2

theorem escLocator_chars (u p h pth : Str)
    (hcu : ∀ c ∈ u, credChar c = true)
    (hcp : ∀ c ∈ p, credChar c = true)
    (hh : ∀ c ∈ h, hostChar c = true)
    (hpc : ∀ c ∈ pth, pathChar c = true) :
    ∀ c ∈ escLocatorOf u p h pth, isCTL c = false ∧ c ≠ '#' := by
  intro c hc
  simp only [escLocatorOf, hostTail, List.mem_append, List.mem_cons,
    String.toList] at hc
  rcases hc with hm | hm
  · rcases hm with rfl | rfl | rfl | rfl | rfl | hm2
    · exact ⟨by decide, by decide⟩
    · exact ⟨by decide, by decide⟩
    · exact ⟨by decide, by decide⟩
    · exact ⟨by decide, by decide⟩
    · exact ⟨by decide, by decide⟩
    · cases hm2
  rcases hm with hm | rfl | hm
  · rcases mem_escSlash hm with ⟨hm2, _⟩ | hm2
    · exact ⟨credChar_ctl c (hcu c hm2), credChar_hash c (hcu c hm2)⟩
    · have hm2p : c = '%' ∨ c = '2' ∨ c = 'F' := by simpa [slashEsc] using hm2
      rcases hm2p with rfl | rfl | rfl <;> exact ⟨by decide, by decide⟩
  · exact ⟨by decide, by decide⟩
  rcases hm with hm | rfl | hm
  · rcases mem_escSlash hm with ⟨hm2, _⟩ | hm2
    · exact ⟨credChar_ctl c (hcp c hm2), credChar_hash c (hcp c hm2)⟩
    · have hm2p : c = '%' ∨ c = '2' ∨ c = 'F' := by simpa [slashEsc] using hm2
      rcases hm2p with rfl | rfl | rfl <;> exact ⟨by decide, by decide⟩
  · exact ⟨by decide, by decide⟩
  rcases hm with hm | hm
  · have := hh c hm
    simp only [hostChar, Bool.decide_and, Bool.and_eq_true, decide_eq_true_eq] at this
    exact ⟨this.1, fun heq => absurd (heq ▸ hh c hm) (by decide)⟩
  · have := hpc c hm
    simp only [pathChar, Bool.decide_and, Bool.and_eq_true, decide_eq_true_eq] at this
    exact ⟨this.1, fun heq => absurd (heq ▸ hpc c hm) (by decide)⟩

theorem bareLocator_chars (h pth : Str)
    (hh : ∀ c ∈ h, hostChar c = true)
    (hpc : ∀ c ∈ pth, pathChar c = true) :
    ∀ c ∈ bareLocatorOf h pth, isCTL c = false ∧ c ≠ '#' ∧ c ≠ '@' := by
  intro c hc
  simp only [bareLocatorOf, List.mem_append, List.mem_cons, String.toList] at hc
  rcases hc with hm | hm
  · rcases hm with rfl | rfl | rfl | rfl | rfl | hm2
    · exact ⟨by decide, by decide, by decide⟩
    · exact ⟨by decide, by decide, by decide⟩
    · exact ⟨by decide, by decide, by decide⟩
    · exact ⟨by decide, by decide, by decide⟩
    · exact ⟨by decide, by decide, by decide⟩
    · cases hm2
  rcases hm with hm | hm
  · have := hh c hm
    simp only [hostChar, Bool.decide_and, Bool.and_eq_true, decide_eq_true_eq] at this
    exact ⟨this.1, fun heq => absurd (heq ▸ hh c hm) (by decide),
      fun heq => absurd (heq ▸ hh c hm) (by decide)⟩
  · have := hpc c hm
    simp only [pathChar, Bool.decide_and, Bool.and_eq_true, decide_eq_true_eq] at this
    exact ⟨this.1, fun heq => absurd (heq ▸ hpc c hm) (by decide),
      fun heq => absurd (heq ▸ hpc c hm) (by decide)⟩

/-! ## The claims -/

/-- Claim C1: when the metadata query reports the store's not-found
signal (an `awserr.RequestFailure` with HTTP status 404), `uriAcquire`
emits exactly one `400 URI Failure` message carrying the locator and
the fixed text `The specified key does not exist.`, emits no `URI
Start` or `URI Done`, decrements the WaitGroup by one and returns
normally (the process keeps running); any other metadata-query error
(a non-404 request failure or any other error) exits the whole process
with status 1. -/
theorem claim_C1 (gw : Gateway) (hf : HashFns) (st : MState) (msg : Message)
    (uriVal : Str) (s3URL : GoURL) (objLoc : ObjectLocation)
    (hconf : st.configured = true)
    (huri : getFieldValue msg fnURI = some uriVal)
    (hep : resolveEndpoint gw st = .ok s3URL)
    (hloc : newLocation uriVal (hostnameOf s3URL.host) = .ok objLoc)
    (hsess : gw.sessionErr = none)
    (hcreds : credsMissing objLoc.uri = false) :
    (∀ etext, gw.head = .reqFailure 404 etext →
       uriAcquire gw hf st msg =
         ⟨[requestStatus objLoc.uri fvConnecting, notFoundMsg objLoc.uri], .done, -1⟩ ∧
       ((uriAcquire gw hf st msg).out.filter (fun m => m.header.status == 400)) =
         [⟨⟨400, hdURIFailure⟩, [⟨fnURI, urlString objLoc.uri⟩, ⟨fnMessage, fvNotFound⟩]⟩] ∧
       (uriAcquire gw hf st msg).out.all
         (fun m => !(m.header.status == 200 || m.header.status == 201)) = true) ∧
    (∀ code etext, code ≠ 404 → gw.head = .reqFailure code etext →
       (uriAcquire gw hf st msg).outcome = .exited 1 ∧
       (uriAcquire gw hf st msg).wgDelta = 0) ∧
    (∀ etext, gw.head = .otherErr etext →
       (uriAcquire gw hf st msg).outcome = .exited 1 ∧
       (uriAcquire gw hf st msg).wgDelta = 0) := by
  refine ⟨?_, ?_, ?_⟩
  · intro etext hh
    simp only [uriAcquire, hconf, huri, hep, hloc, hsess, hcreds, hh]
    simp [requestStatus, notFoundMsg]
  · intro code etext hcode hh
    simp only [uriAcquire, hconf, huri, hep, hloc, hsess, hcreds, hh]
    simp [hcode]
  · intro etext hh
    simp only [uriAcquire, hconf, huri, hep, hloc, hsess, hcreds, hh]
    simp

theorem claim_C1_witness :
    uriAcquire (exGateway (.reqFailure 404 [])) exHash exStateConfigured exAcqMsg =
      ⟨[requestStatus exObjLoc.uri fvConnecting, notFoundMsg exObjLoc.uri], .done, -1⟩ ∧
    (uriAcquire (exGateway (.reqFailure 403 "denied".toList)) exHash exStateConfigured
        exAcqMsg).outcome = .exited 1 ∧
    (uriAcquire (exGateway (.otherErr "boom".toList)) exHash exStateConfigured
        exAcqMsg).outcome = .exited 1 :=
  ⟨((claim_C1 (exGateway (.reqFailure 404 [])) exHash exStateConfigured exAcqMsg
        "s3://ak:sk@s3.amazonaws.com/bucket/pkg.deb".toList exEndpointURL exObjLoc
        rfl rfl rfl (by decide) rfl rfl).1 [] rfl).1,
   ((claim_C1 (exGateway (.reqFailure 403 "denied".toList)) exHash exStateConfigured exAcqMsg
        "s3://ak:sk@s3.amazonaws.com/bucket/pkg.deb".toList exEndpointURL exObjLoc
        rfl rfl rfl (by decide) rfl rfl).2.1 403 "denied".toList (by decide) rfl).1,
   ((claim_C1 (exGateway (.otherErr "boom".toList)) exHash exStateConfigured exAcqMsg
        "s3://ak:sk@s3.amazonaws.com/bucket/pkg.deb".toList exEndpointURL exObjLoc
        rfl rfl rfl (by decide) rfl rfl).2.2 "boom".toList rfl).1⟩

/-- Claim C2: `handleError` on a non-nil error emits exactly one
`401 General Failure` message whose `Message` field is the error text
with every newline replaced by a space, and exits the process with
status 1; accordingly, every exiting run of `uriAcquire` has emitted
exactly one 401 message — the last message — and abandoned its
WaitGroup decrement. -/
theorem claim_C2 (e : Str) (gw : Gateway) (hf : HashFns) (st : MState) (msg : Message)
    (r : RunResult) (hr : uriAcquire gw hf st msg = r) :
    (handleErrorM (some e) =
       ([⟨⟨401, hdGeneralFailure⟩, [⟨fnMessage, replaceAll ['\n'] [' '] e⟩]⟩], some 1)) ∧
    (r.outcome = .exited 1 →
       ((r.out.filter (fun m => m.header.status == 401)).length = 1 ∧
        (∃ e2, r.out.getLast? = some (generalFailure e2)) ∧ r.wgDelta = 0)) := by
  constructor
  · rfl
  · unfold uriAcquire at hr
    repeat' split at hr
    all_goals subst hr
    all_goals intro h
    all_goals
      first
        | exact ⟨by simp [requestStatus, uriStartMsg, generalFailure, notFoundMsg, uriDoneMsg],
                 ⟨_, rfl⟩, rfl⟩
        | simp at h

theorem claim_C2_witness :
    (handleErrorM (some "no\nnewlines".toList) =
       ([⟨⟨401, hdGeneralFailure⟩,
          [⟨fnMessage, replaceAll ['\n'] [' '] "no\nnewlines".toList⟩]⟩], some 1)) ∧
    (((uriAcquire (exGateway (.otherErr "boom".toList)) exHash exStateConfigured
          exAcqMsg).out.filter (fun m => m.header.status == 401)).length = 1 ∧
     (∃ e2, (uriAcquire (exGateway (.otherErr "boom".toList)) exHash exStateConfigured
          exAcqMsg).out.getLast? = some (generalFailure e2)) ∧
     (uriAcquire (exGateway (.otherErr "boom".toList)) exHash exStateConfigured
          exAcqMsg).wgDelta = 0) :=
  ⟨(claim_C2 "no\nnewlines".toList (exGateway (.otherErr "boom".toList)) exHash
      exStateConfigured exAcqMsg _ rfl).1,
   (claim_C2 "no\nnewlines".toList (exGateway (.otherErr "boom".toList)) exHash
      exStateConfigured exAcqMsg _ rfl).2 (by decide)⟩

/-- Claim C3, counterexample: resolving `s3://just-bucket` against the
endpoint host `ep.example.com` does not yield the opaque-style pair
(bucket = whole host, key = path minus its leading slash); the empty
parsed path makes `uri.Path[1:]` panic instead. -/
theorem claim_C3_cex :
    newLocation "s3://just-bucket".toList "ep.example.com".toList = .panicked ∧
    locBucketKey (newLocation "s3://just-bucket".toList "ep.example.com".toList) ≠
      some ("just-bucket".toList, []) := by
  decide

/-- Claim C3, amended: resolution after a successful parse is classified
purely by comparing the parsed host with the endpoint host.  Host equal
to the endpoint host: path-style — fewer than 3 `/`-delimited path
tokens is the location error, otherwise the bucket is the first path
segment and the key joins the rest with `/`.  Host of the form
`<bucket>.<endpoint-host>`: the bucket drops that suffix.  Any other
host: the bucket is the whole host.  In the two non-path styles the key
is the path minus its leading `/` — provided the parsed path is
nonempty (the empty path panics instead, claim C9). -/
theorem claim_C3_amended (value s3Hostname processed : Str) (uri : GoURL)
    (hpre : preProcessURL value = some processed)
    (hparse : parseURL processed = some uri) :
    (uri.host = s3Hostname →
      ((splitOnChar '/' uri.path).length < 3 →
          newLocation value s3Hostname = .err .missingTokens) ∧
      (∀ t0 b rest, splitOnChar '/' uri.path = t0 :: b :: rest →
          ¬ (splitOnChar '/' uri.path).length < 3 →
          newLocation value s3Hostname = .ok ⟨uri, b, joinWith '/' rest⟩)) ∧
    (∀ b k, uri.host = b ++ '.' :: s3Hostname → uri.path = '/' :: k →
        newLocation value s3Hostname = .ok ⟨uri, b, k⟩) ∧
    (∀ k, uri.host ≠ s3Hostname → (¬ ∃ b, uri.host = b ++ '.' :: s3Hostname) →
        uri.path = '/' :: k →
        newLocation value s3Hostname = .ok ⟨uri, uri.host, k⟩) := by
  have hnew : newLocation value s3Hostname = newLocationFromURI uri s3Hostname := by
    simp only [newLocation, hpre, hparse]
  refine ⟨?_, ?_, ?_⟩
  · intro hh
    constructor
    · intro hlen
      rw [hnew]; unfold newLocationFromURI
      rw [if_pos hh,
        if_pos (show (splitOnChar '/' uri.path).length < locationMinTokensCount from hlen)]
    · intro t0 b rest htok hlen
      rw [hnew]; unfold newLocationFromURI
      rw [if_pos hh,
        if_neg (show ¬ (splitOnChar '/' uri.path).length < locationMinTokensCount from hlen)]
      simp [htok, joinWith]
  · intro b k hh hpath
    have hne : uri.host ≠ s3Hostname := by
      rw [hh]; intro hcontra
      have := congrArg List.length hcontra
      simp at this
      omega
    have hsuf : hasSuffixL uri.host s3Hostname = true := by
      rw [hh]
      have hsplit : b ++ '.' :: s3Hostname = (b ++ ['.']) ++ s3Hostname := by simp
      rw [hsplit]; exact hasSuffixL_append _ _
    rw [hnew]; unfold newLocationFromURI
    rw [if_neg hne, if_pos hsuf, hpath]
    have htrim : trimSuffixL uri.host ('.' :: s3Hostname) = b := by
      rw [hh]; exact trimSuffixL_append b ('.' :: s3Hostname)
    rw [htrim]
  · intro k hne hnodec hpath
    rw [hnew]; unfold newLocationFromURI
    rw [if_neg hne]
    by_cases hs : hasSuffixL uri.host ('.' :: s3Hostname) = true
    · exfalso
      simp only [hasSuffixL, List.isSuffixOf_iff_suffix] at hs
      obtain ⟨t, ht⟩ := hs
      exact hnodec ⟨t, ht.symm⟩
    · have htrim := trimSuffixL_no uri.host ('.' :: s3Hostname) (by simpa using hs)
      split
      · rw [hpath, htrim]
      · rw [hpath]

theorem claim_C3_witness :
    newLocation "s3://s3.amazonaws.com/bucket/a/b".toList "s3.amazonaws.com".toList =
      .ok ⟨⟨"s3".toList, [], none, "s3.amazonaws.com".toList, "/bucket/a/b".toList, [], []⟩,
           "bucket".toList, "a/b".toList⟩ :=
  ((claim_C3_amended "s3://s3.amazonaws.com/bucket/a/b".toList "s3.amazonaws.com".toList
        "s3://s3.amazonaws.com/bucket/a/b".toList
        ⟨"s3".toList, [], none, "s3.amazonaws.com".toList, "/bucket/a/b".toList, [], []⟩
        rfl rfl).1 rfl).2
    [] "bucket".toList ["a".toList, "b".toList] (by decide) (by decide)

/-- Claim C4, counterexample: the locator `s3://a/b:%2F@host/x` has an
access key (`a/b`) containing `/`, yet the extracted password is the
percent-decoding `/` of the raw secret `%2F`, not the original secret:
escaping only `/` does not protect credentials containing `%`. -/
theorem claim_C4_cex :
    ('/' ∈ "a/b".toList) ∧
    locPassword (newLocation "s3://a/b:%2F@host/x".toList "s3.amazonaws.com".toList) =
      some "/".toList ∧
    some "/".toList ≠ some "%2F".toList := by
  decide

/-- Claim C4, amended: for a locator `s3://u:p@host/path` whose
credentials may contain `/`, the percent-escaping round-trip holds
provided the credentials are nonempty, contain only `/` and Go-valid
userinfo characters other than `:`, `@` and `%`, the host and path are
free of the listed structural characters, and neither credential occurs
as a substring of the locator outside its own position (hypotheses
`h1`-`h4`): `preProcessURL` yields exactly the slash-escaped locator,
`url.Parse` recovers the original unescaped username and password, and
bucket/key segmentation equals that of the credential-free locator. -/
theorem claim_C4_amended (u p h pth k : Str)
    (hu : u ≠ []) (hp : p ≠ [])
    (hslash : '/' ∈ u ∨ '/' ∈ p)
    (hcu : ∀ c ∈ u, credChar c = true)
    (hcp : ∀ c ∈ p, credChar c = true)
    (hh : ∀ c ∈ h, hostChar c = true)
    (hpthk : pth = '/' :: k)
    (hpc : ∀ c ∈ pth, pathChar c = true)
    (h1 : ∀ i, i < 5 → u.isPrefixOf ((locatorOf u p h pth).drop i) = false)
    (h2 : ∀ i, i < (credTail p h pth).length →
        u.isPrefixOf ((credTail p h pth).drop i) = false)
    (h3 : ∀ i, i < 6 + (escSlash u).length →
        p.isPrefixOf ((midLocatorOf u p h pth).drop i) = false)
    (h4 : ∀ i, i < (hostTail h pth).length →
        p.isPrefixOf ((hostTail h pth).drop i) = false) :
    preProcessURL (locatorOf u p h pth) = some (escLocatorOf u p h pth) ∧
    parseURL (escLocatorOf u p h pth) =
      some ⟨['s', '3'], [], some ⟨u, some p⟩, h, pth, [], []⟩ ∧
    ∀ hostname, sameSegmentation (newLocation (locatorOf u p h pth) hostname)
        (newLocation (bareLocatorOf h pth) hostname) := by
  have hpre := preProcess_locator u p h pth hu hp hcu hcp hh h1 h2 h3 h4
  have hchars := escLocator_chars u p h pth hcu hcp hh hpc
  have hparse := parseURL_of_parseMain
    (fun c hc => (hchars c hc).1)
    (fun hm => (hchars '#' hm).2 rfl)
    (parseMain_cred u p h pth k hcu hcp hh hpthk hpc)
  refine ⟨hpre, hparse, ?_⟩
  intro hostname
  have hbchars := bareLocator_chars h pth hh hpc
  have hbat : '@' ∉ bareLocatorOf h pth := fun hm => (hbchars '@' hm).2.2 rfl
  have hbpre : preProcessURL (bareLocatorOf h pth) = some (bareLocatorOf h pth) := by
    unfold preProcessURL
    rw [firstIdxOf_not_mem hbat]
  have hbparse := parseURL_of_parseMain
    (fun c hc => (hbchars c hc).1)
    (fun hm => (hbchars '#' hm).2.1 rfl)
    (parseMain_bare h pth k hh hpthk hpc)
  have hfull : newLocation (locatorOf u p h pth) hostname =
      newLocationFromURI ⟨['s', '3'], [], some ⟨u, some p⟩, h, pth, [], []⟩ hostname := by
    simp only [newLocation, hpre, hparse]
  have hbfull : newLocation (bareLocatorOf h pth) hostname =
      newLocationFromURI ⟨['s', '3'], [], none, h, pth, [], []⟩ hostname := by
    simp only [newLocation, hbpre, hbparse]
  rw [hfull, hbfull]
  exact sameSeg_fromURI ⟨['s', '3'], [], some ⟨u, some p⟩, h, pth, [], []⟩
    ⟨['s', '3'], [], none, h, pth, [], []⟩ rfl rfl hostname

theorem claim_C4_witness :
    parseURL (escLocatorOf "AKIA/XY".toList "se/cret".toList "s3.amazonaws.com".toList
        "/bucket/pkg.deb".toList) =
      some ⟨['s', '3'], [], some ⟨"AKIA/XY".toList, some "se/cret".toList⟩,
            "s3.amazonaws.com".toList, "/bucket/pkg.deb".toList, [], []⟩ ∧
    sameSegmentation
      (newLocation (locatorOf "AKIA/XY".toList "se/cret".toList "s3.amazonaws.com".toList
          "/bucket/pkg.deb".toList) "s3.amazonaws.com".toList)
      (newLocation (bareLocatorOf "s3.amazonaws.com".toList "/bucket/pkg.deb".toList)
          "s3.amazonaws.com".toList) :=
  ⟨(claim_C4_amended "AKIA/XY".toList "se/cret".toList "s3.amazonaws.com".toList
      "/bucket/pkg.deb".toList "bucket/pkg.deb".toList
      (by decide) (by decide) (by decide) (by decide) (by decide) (by decide)
      (by decide) (by decide) (by decide) (by decide) (by decide) (by decide)).2.1,
   (claim_C4_amended "AKIA/XY".toList "se/cret".toList "s3.amazonaws.com".toList
      "/bucket/pkg.deb".toList "bucket/pkg.deb".toList
      (by decide) (by decide) (by decide) (by decide) (by decide) (by decide)
      (by decide) (by decide) (by decide) (by decide) (by decide) (by decide)).2.2
      "s3.amazonaws.com".toList⟩

/-- Claim C5, counterexample: when the `Filename` field is absent the
request does fail fatally, but a `200 URI Start` message has already
been emitted — `uriAcquire` outputs URI Start before checking
`Filename` (method.go lines 357 and 359). -/
theorem claim_C5_cex :
    getFieldValue exAcqMsgNoFilename fnFilename = none ∧
    ((uriAcquire (exGateway (.ok 9012 1540498659)) exHash exStateConfigured
        exAcqMsgNoFilename).out.filter (fun m => m.header.status == 200)).length = 1 ∧
    (uriAcquire (exGateway (.ok 9012 1540498659)) exHash exStateConfigured
        exAcqMsgNoFilename).outcome = .exited 1 := by
  refine ⟨rfl, ?_, rfl⟩
  decide

/-- Claim C5, amended: after a successful metadata query `uriAcquire`
always emits the `URI Start` message — locator, size, and last-modified
rendered per RFC 1123 in GMT — and only then requires the `Filename`
field: if `Filename` is absent the request fails fatally (one
`401 General Failure`, exit status 1) with the URI Start already
output. -/
theorem claim_C5_amended (gw : Gateway) (hf : HashFns) (st : MState) (msg : Message)
    (uriVal : Str) (s3URL : GoURL) (objLoc : ObjectLocation) (size t : Int)
    (hconf : st.configured = true)
    (huri : getFieldValue msg fnURI = some uriVal)
    (hep : resolveEndpoint gw st = .ok s3URL)
    (hloc : newLocation uriVal (hostnameOf s3URL.host) = .ok objLoc)
    (hsess : gw.sessionErr = none)
    (hcreds : credsMissing objLoc.uri = false)
    (hhead : gw.head = .ok size t) :
    (getFieldValue msg fnFilename = none →
       uriAcquire gw hf st msg =
         ⟨[requestStatus objLoc.uri fvConnecting, uriStartMsg objLoc.uri size t,
           generalFailure errAcqFilenameText], .exited 1, 0⟩) ∧
    (uriStartMsg objLoc.uri size t ∈ (uriAcquire gw hf st msg).out) ∧
    uriStartMsg objLoc.uri size t =
      ⟨⟨200, hdURIStart⟩,
       [⟨fnURI, urlString objLoc.uri⟩, ⟨fnSize, intToStr size⟩,
        ⟨fnLastModified, formatRFC1123GMT t⟩]⟩ := by
  refine ⟨?_, ?_, rfl⟩
  · intro hfn
    simp only [uriAcquire, hconf, huri, hep, hloc, hsess, hcreds, hhead, hfn]
    simp
  · simp only [uriAcquire, hconf, huri, hep, hloc, hsess, hcreds, hhead]
    rcases hfn : getFieldValue msg fnFilename with _ | fn
    · simp
    · rcases gw.createErr with _ | e
      · rcases gw.download with e | nb
        · simp
        · rcases gw.readFile with e | fb <;> simp
      · simp

theorem claim_C5_witness :
    uriStartMsg exObjLoc.uri 9012 1540498659 ∈
      (uriAcquire (exGateway (.ok 9012 1540498659)) exHash exStateConfigured exAcqMsg).out ∧
    uriStartMsg exObjLoc.uri 9012 1540498659 =
      ⟨⟨200, hdURIStart⟩,
       [⟨fnURI, urlString exObjLoc.uri⟩, ⟨fnSize, intToStr 9012⟩,
        ⟨fnLastModified, formatRFC1123GMT 1540498659⟩]⟩ :=
  ⟨(claim_C5_amended (exGateway (.ok 9012 1540498659)) exHash exStateConfigured exAcqMsg
      "s3://ak:sk@s3.amazonaws.com/bucket/pkg.deb".toList exEndpointURL exObjLoc 9012 1540498659
      rfl rfl rfl (by decide) rfl rfl rfl).2.1,
   (claim_C5_amended (exGateway (.ok 9012 1540498659)) exHash exStateConfigured exAcqMsg
      "s3://ak:sk@s3.amazonaws.com/bucket/pkg.deb".toList exEndpointURL exObjLoc 9012 1540498659
      rfl rfl rfl (by decide) rfl rfl rfl).2.2⟩

/-- Claim C6: a successful download ends with the `201 URI Done` message
carrying the locator, filename, size, RFC-1123 GMT last-modified, and
the hex-encoded MD5, SHA-1, SHA-256 and SHA-512 digests of the bytes
read back from the just-written file, with the MD5 digest under the two
distinct field names `MD5-Hash` and `MD5Sum-Hash` and equal values. -/
theorem claim_C6 (gw : Gateway) (hf : HashFns) (st : MState) (msg : Message)
    (uriVal fn : Str) (s3URL : GoURL) (objLoc : ObjectLocation)
    (size t numBytes : Int) (fileBytes : List Nat)
    (hconf : st.configured = true)
    (huri : getFieldValue msg fnURI = some uriVal)
    (hep : resolveEndpoint gw st = .ok s3URL)
    (hloc : newLocation uriVal (hostnameOf s3URL.host) = .ok objLoc)
    (hsess : gw.sessionErr = none)
    (hcreds : credsMissing objLoc.uri = false)
    (hhead : gw.head = .ok size t)
    (hfn : getFieldValue msg fnFilename = some fn)
    (hcreate : gw.createErr = none)
    (hdl : gw.download = .ok numBytes)
    (hread : gw.readFile = .ok fileBytes) :
    (uriAcquire gw hf st msg).out.getLast? =
      some (uriDoneMsg hf objLoc.uri numBytes t fn fileBytes) ∧
    (uriDoneMsg hf objLoc.uri numBytes t fn fileBytes).header = ⟨201, hdURIDone⟩ ∧
    (uriDoneMsg hf objLoc.uri numBytes t fn fileBytes).fields =
      [⟨fnURI, urlString objLoc.uri⟩, ⟨fnFilename, fn⟩, ⟨fnSize, intToStr numBytes⟩,
       ⟨fnLastModified, formatRFC1123GMT t⟩,
       ⟨fnMD5Hash, hexEncode (hf.md5 fileBytes)⟩,
       ⟨fnMD5SumHash, hexEncode (hf.md5 fileBytes)⟩,
       ⟨fnSHA1Hash, hexEncode (hf.sha1 fileBytes)⟩,
       ⟨fnSHA256Hash, hexEncode (hf.sha256 fileBytes)⟩,
       ⟨fnSHA512Hash, hexEncode (hf.sha512 fileBytes)⟩] ∧
    fnMD5Hash ≠ fnMD5SumHash := by
  refine ⟨?_, rfl, rfl, by decide⟩
  simp only [uriAcquire, hconf, huri, hep, hloc, hsess, hcreds, hhead, hfn, hcreate, hdl, hread]
  simp

theorem claim_C6_witness :
    (uriAcquire (exGateway (.ok 9012 1540498659)) exHash exStateConfigured exAcqMsg).out.getLast? =
      some (uriDoneMsg exHash exObjLoc.uri 9012 1540498659 "/tmp/pkg.deb".toList [1, 2, 3]) ∧
    fnMD5Hash ≠ fnMD5SumHash :=
  ⟨(claim_C6 (exGateway (.ok 9012 1540498659)) exHash exStateConfigured exAcqMsg
      "s3://ak:sk@s3.amazonaws.com/bucket/pkg.deb".toList "/tmp/pkg.deb".toList
      exEndpointURL exObjLoc 9012 1540498659 9012 [1, 2, 3]
      rfl rfl rfl (by decide) rfl rfl rfl rfl rfl rfl rfl).1,
   (claim_C6 (exGateway (.ok 9012 1540498659)) exHash exStateConfigured exAcqMsg
      "s3://ak:sk@s3.amazonaws.com/bucket/pkg.deb".toList "/tmp/pkg.deb".toList
      exEndpointURL exObjLoc 9012 1540498659 9012 [1, 2, 3]
      rfl rfl rfl (by decide) rfl rfl rfl rfl rfl rfl rfl).2.2.2⟩

/-- Claim C7: in every interleaving reachable from startup, a fetch
handler that has moved past the configuration gate — into credential
resolution, the metadata query, or the download — implies the latch is
set; and the gate is the only inter-request constraint: once the latch
is set, any unfinished handler can always take its next step, whatever
the other handlers' phases. -/
theorem claim_C7 :
    (∀ (n : Nat) (s : GateState), GateReachable (initGateState n) s →
       ∀ (i : Nat) (ph : ReqPhase), s.reqs.get? i = some ph → ph ≠ .gated →
         s.configured = true) ∧
    (∀ (s : GateState) (i : Nat) (ph : ReqPhase), s.configured = true →
       s.reqs.get? i = some ph → ph ≠ .finished →
       GateStep s { s with reqs := s.reqs.set i (phaseNext ph) }) := by
  constructor
  · intro n s hreach i ph hi hph
    rcases gateInv_reachable hreach with hc | hall
    · exact hc
    · exact absurd (hall ph (List.get?_mem hi)) hph
  · intro s i ph hc hi hfin
    exact GateStep.reqStep s i ph hi (fun _ => hc) hfin

theorem claim_C7_witness :
    (GateState.mk true [ReqPhase.resolvingCreds]).configured = true ∧
    GateStep ⟨true, [ReqPhase.queryingMeta]⟩ ⟨true, [ReqPhase.downloading]⟩ :=
  ⟨claim_C7.1 1 ⟨true, [ReqPhase.resolvingCreds]⟩
      (Relation.ReflTransGen.tail
        (Relation.ReflTransGen.single (GateStep.applyConfig (initGateState 1)))
        (GateStep.reqStep ⟨true, [ReqPhase.gated]⟩ 0 .gated rfl (fun _ => rfl) (by decide)))
      0 .resolvingCreds rfl (by decide),
   claim_C7.2 ⟨true, [ReqPhase.queryingMeta]⟩ 0 .queryingMeta rfl rfl (by decide)⟩

/-- Claim C8: applying a configuration message whose only `Config-Item`
is `Acquire::s3::region=eu-west-1` sets the region to `eu-west-1`, sets
the configured latch, decrements the WaitGroup by 1, and leaves the
role identifier and endpoint override at their prior values. -/
theorem claim_C8 (st : MState) :
    ∃ st2, configureRun st exCfgMsg = some (st2, -1) ∧
      st2.region = "eu-west-1".toList ∧
      st2.roleARN = st.roleARN ∧ st2.endpoint = st.endpoint ∧ st2.configured = true :=
  ⟨_, rfl, rfl, rfl, rfl, rfl⟩

/-- Claim C9: whenever the parsed locator's host differs from the
endpoint host and the parsed path is empty, `newLocation` panics
(`uri.Path[1:]` with an out-of-range slice) instead of returning a
location error. -/
theorem claim_C9 (value s3Hostname processed : Str) (uri : GoURL)
    (hpre : preProcessURL value = some processed)
    (hparse : parseURL processed = some uri)
    (hhost : uri.host ≠ s3Hostname)
    (hpath : uri.path = []) :
    newLocation value s3Hostname = .panicked := by
  simp only [newLocation, hpre, hparse]
  unfold newLocationFromURI
  rw [if_neg hhost, hpath]
  split <;> rfl

theorem claim_C9_witness :
    newLocation "s3://my-bucket".toList "minio.example.com".toList = .panicked :=
  claim_C9 "s3://my-bucket".toList "minio.example.com".toList "s3://my-bucket".toList
    ⟨"s3".toList, [], none, "my-bucket".toList, [], [], []⟩
    rfl rfl (by decide) rfl

/-- Claim C10: an inbound message whose code is neither 600 nor 601 is
read off the stream (incrementing the counter) but dispatched to no
handler — its WaitGroup delta is 0, never -1.  Hence over any run in
which every 600/601 handler reaches a terminal outcome, the final
counter equals the number of ignored messages, and one such message is
enough to keep the counter nonzero forever: `Run`'s `wg.Wait` never
returns and the process never exits on its own. -/
theorem claim_C10 :
    (∀ (gw : Gateway) (hf : HashFns) (st : MState) (m : Message),
       unknownCode m = true → handleBytesModel gw hf st m = ⟨[], .done, 0⟩) ∧
    (∀ (runs : List (Message × RunResult)),
       (∀ p ∈ runs, ∃ gw hf st, handleBytesModel gw hf st p.1 = p.2) →
       (∀ p ∈ runs, unknownCode p.1 = false → p.2.wgDelta = -1) →
       finalCounter (runs.map (fun p => p.2.wgDelta)) =
         ((runs.filter (fun p => unknownCode p.1)).length : Int) ∧
       ((∃ p ∈ runs, unknownCode p.1 = true) →
         finalCounter (runs.map (fun p => p.2.wgDelta)) ≠ 0)) := by
  have hdrop : ∀ (gw : Gateway) (hf : HashFns) (st : MState) (m : Message),
      unknownCode m = true → handleBytesModel gw hf st m = ⟨[], .done, 0⟩ := by
    intro gw hf st m h
    simp only [unknownCode, decide_eq_true_eq] at h
    push_neg at h
    simp [handleBytesModel, h.1, h.2]
  refine ⟨hdrop, ?_⟩
  intro runs hdisp hterm
  have hdelta : ∀ p ∈ runs, p.2.wgDelta = if unknownCode p.1 then 0 else -1 := by
    intro p hp
    by_cases hu : unknownCode p.1 = true
    · obtain ⟨gw, hf, st, heq⟩ := hdisp p hp
      rw [hu, if_pos rfl, ← heq, hdrop gw hf st p.1 hu]
    · simp only [Bool.not_eq_true] at hu
      rw [hu, if_neg (by simp)]
      exact hterm p hp hu
  have hmain : finalCounter (runs.map (fun p => p.2.wgDelta)) =
      ((runs.filter (fun p => unknownCode p.1)).length : Int) := by
    unfold finalCounter
    clear hdisp hterm
    induction runs with
    | nil => simp
    | cons p rs ih =>
      have hp := hdelta p (by simp)
      have hrs := ih (fun q hq => hdelta q (by simp [hq]))
      by_cases hu : unknownCode p.1 = true
      · simp only [hu, if_pos] at hp
        simp only [List.map_cons, List.sum_cons, List.length_cons, List.filter_cons, hu,
          if_pos, hp, Nat.cast_add, Nat.cast_one] at hrs ⊢
        omega
      · simp only [Bool.not_eq_true] at hu
        simp only [hu, Bool.false_eq_true, if_neg, not_false_iff] at hp
        simp only [List.map_cons, List.sum_cons, List.length_cons, List.filter_cons, hu,
          Bool.false_eq_true, if_neg, not_false_iff, hp] at hrs ⊢
        omega
  refine ⟨hmain, ?_⟩
  intro ⟨p, hp, hu⟩
  rw [hmain]
  have : p ∈ runs.filter (fun q => unknownCode q.1) := List.mem_filter.mpr ⟨hp, hu⟩
  have hlen : 0 < (runs.filter (fun q => unknownCode q.1)).length :=
    List.length_pos.mpr (List.ne_nil_of_mem this)
  simp only [ne_eq, Nat.cast_eq_zero]
  omega

theorem claim_C10_witness :
    finalCounter [(0 : Int)] = ((1 : Nat) : Int) ∧ finalCounter [(0 : Int)] ≠ 0 := by
  have h := (claim_C10.2 [(⟨⟨100, hdCapabilities⟩, []⟩, ⟨[], .done, 0⟩)]
      (fun p hp => ⟨exGateway (.otherErr []), exHash, exStateConfigured, by
        cases hp with
        | head => rfl
        | tail _ h2 => cases h2⟩)
      (by decide))
  refine ⟨h.1, h.2 (by decide)⟩

end AptS3
